import Mathlib

/-!
Verification development for the roster-reconciliation core
(`src/core/pipeline_v2.py`): a shallow embedding of the name
normalizer, the roster analyzer (`analyze_roster_once`), the
transfer-in assigner (`build_transfer_ids`) and the withdrawal
matcher (`build_withdraw_outputs`), together with theorems about the
spec's claims.

Modelling conventions:
- worksheet cells are `Option String` (a `None` cell is `none`; any
  other cell value is taken after Python's `str(...)` conversion);
- Python `dict`/`Counter` values are embedded as association lists in
  insertion order, so that `most_common` tie-breaking (first key
  inserted wins) and dict iteration order are preserved;
- Python `str.casefold`/`str.lower` agree on the alphabet in play
  (ASCII Latin plus Hangul syllables) and are embedded as `Char.toLower`;
- dates are embedded as integers (only `<` comparisons occur);
- Python's stable `list.sort(key=...)` is embedded as insertion sort
  over the decidable total preorder induced by the key, which is the
  same stable sort.
-/

namespace Pipeline

/-- Regex class `[가-힣]` : Hangul syllables, U+AC00 .. U+D7A3 (`HANGUL_RE`). -/
def isHangulChar (c : Char) : Bool :=
  0xAC00 ≤ c.toNat && c.toNat ≤ 0xD7A3

/-- Regex class `[A-Za-z]` : ASCII Latin letters (`EN_RE`). -/
def isLatinChar (c : Char) : Bool :=
  (65 ≤ c.toNat && c.toNat ≤ 90) || (97 ≤ c.toNat && c.toNat ≤ 122)

/-- The character class kept by `re.sub(r"[^A-Za-z가-힣\s]", "", s)`. -/
def keepNameChar (c : Char) : Bool :=
  isLatinChar c || isHangulChar c || c.isWhitespace

/-- Python `str.strip()` on the underlying character list. -/
def stripChars (cs : List Char) : List Char :=
  ((cs.dropWhile Char.isWhitespace).reverse.dropWhile Char.isWhitespace).reverse

/-- Python `str.strip()` as a `String → String` map. -/
def pyStrip (s : String) : String :=
  ⟨stripChars s.data⟩

/-- Split a character list into maximal whitespace-free tokens
(the token list of the whitespace-collapsed string). -/
def splitWsAux : List Char → List Char → List (List Char)
  | [], acc => if acc.isEmpty then [] else [acc.reverse]
  | c :: rest, acc =>
    if c.isWhitespace then
      if acc.isEmpty then splitWsAux rest [] else acc.reverse :: splitWsAux rest []
    else splitWsAux rest (c :: acc)

def splitWs (cs : List Char) : List (List Char) :=
  splitWsAux cs []

/-- Python `tok.lower().capitalize()`: all lowercase, first char uppercase. -/
def capitalizeTok (tok : List Char) : List Char :=
  match tok.map Char.toLower with
  | [] => []
  | c :: t => c.toUpper :: t

/-- Embedding of `re.sub(r"[A-Za-z]+", fix, s)` where `fix` lowercases a maximal
Latin run and uppercases its first letter: a Latin letter is
uppercased exactly when it starts a run (previous char non-Latin). -/
def fixLatinRunsAux : Bool → List Char → List Char
  | _, [] => []
  | inRun, c :: rest =>
    if isLatinChar c then
      (if inRun then c.toLower else c.toLower.toUpper) :: fixLatinRunsAux true rest
    else
      c :: fixLatinRunsAux false rest

def fixLatinRuns (cs : List Char) : List Char :=
  fixLatinRunsAux false cs

/-- Source `normalize_name` of `pipeline_v2.py`: strip, drop characters other
than Latin/Hangul/whitespace, collapse whitespace; then
- Hangul only: remove spaces;
- Latin only: title-case each token and concatenate;
- mixed: title-case each maximal Latin run, remove spaces;
- neither: empty string. -/
def normalize_name (raw : Option String) : String :=
  match raw with
  | none => ""
  | some raw =>
    let cs := (stripChars raw.data).filter keepNameChar
    let toks := splitWs cs
    if toks.isEmpty then ""
    else
      let has_ko := toks.any (fun t => t.any isHangulChar)
      let has_en := toks.any (fun t => t.any isLatinChar)
      if has_ko && !has_en then ⟨toks.flatten⟩
      else if has_en && !has_ko then ⟨(toks.map capitalizeTok).flatten⟩
      else if has_ko && has_en then ⟨(toks.map fixLatinRuns).flatten⟩
      else ""

/-- Source `normalize_name_key`: same character filtering, all whitespace
removed, casefolded; used for equality comparison only. -/
def normalize_name_key (raw : Option String) : String :=
  match raw with
  | none => ""
  | some raw =>
    ⟨(((stripChars raw.data).filter keepNameChar).filter
        (fun c => !c.isWhitespace)).map Char.toLower⟩

/-- Source `english_casefold_key`: `str(name).strip().casefold()`. -/
def english_casefold_key (name : String) : String :=
  ⟨(stripChars name.data).map Char.toLower⟩

/-- One step of the `dedup_suffix_letters` loop, with explicit fuel so
the definition is structural (the loop value strictly decreases, so
fuel `n` suffices for value `n`). -/
def dedupSuffixAux : Nat → Nat → List Char
  | _, 0 => []
  | 0, _ + 1 => []
  | fuel + 1, n + 1 => dedupSuffixAux fuel (n / 26) ++ [Char.ofNat (65 + n % 26)]

/-- Digit list of the bijective base-26 numeral of `n` (empty for 0). -/
def dedupSuffixGo (n : Nat) : List Char :=
  dedupSuffixAux n n

/-- Source `dedup_suffix_letters(n)`: bijective base-26 numeral over A..Z;
empty string for `n <= 0`. -/
def dedup_suffix_letters (n : Int) : String :=
  if n ≤ 0 then "" else ⟨dedupSuffixGo n.toNat⟩

/-- The running `seen` counter pass of `apply_suffix_for_duplicates`:
`total` is the full-batch count per casefolded key, `seen` the multiset
of keys already suffixed. -/
def asdGo (total : String → Nat) : List String → List String → List String
  | _, [] => []
  | seen, nm :: rest =>
    let key := english_casefold_key nm
    if total key ≤ 1 then
      nm :: asdGo total seen rest
    else
      (nm ++ dedup_suffix_letters ((seen.count key : Int) + 1)) ::
        asdGo total (key :: seen) rest

/-- Source `apply_suffix_for_duplicates`: names whose casefolded key occurs at
most once pass through; others get `dedup_suffix_letters` of their
1-based occurrence index appended. -/
def apply_suffix_for_duplicates (names : List String) : List String :=
  asdGo (fun k => (names.map english_casefold_key).count k) [] names

/-- Value of a nonempty decimal digit run (`int` of a digit string). -/
def digitsToNat (ds : List Char) : Nat :=
  ds.foldl (fun acc c => acc * 10 + (c.toNat - 48)) 0

/-- Source `parse_class_str`: `^\s*(\d+)\s*-\s*(.+?)\s*$` returning
(grade, stripped section); `none` when the label does not parse. -/
def parse_class_str (s : String) : Option (Int × String) :=
  let cs := s.data.dropWhile Char.isWhitespace
  let ds := cs.takeWhile Char.isDigit
  let cs := cs.dropWhile Char.isDigit
  if ds.isEmpty then none
  else
    match cs.dropWhile Char.isWhitespace with
    | '-' :: rest =>
      if rest.isEmpty then none
      else some ((digitsToNat ds : Int), ⟨stripChars rest⟩)
    | _ => none

/-- Source `extract_id_prefix4`: the leading 4 characters of the stripped
identifier as an integer when they are all digits, else `none`. -/
def extract_id_prefix4 (uid : Option String) : Option Int :=
  match uid with
  | none => none
  | some uid =>
    let s := stripChars uid.data
    if 4 ≤ s.length && (s.take 4).all Char.isDigit then
      some (digitsToNat (s.take 4) : Int)
    else none

/-- Keys of a Python dict/Counter in first-insertion order. -/
def firstOccur [DecidableEq α] : List α → List α
  | [] => []
  | a :: l => a :: (firstOccur l).filter (fun x => x ≠ a)

/-- First element of `l` with maximal `cnt`-value (later elements win
only with a strictly greater count). -/
def argmaxFirst (cnt : α → Nat) : List α → Option α
  | [] => none
  | a :: l =>
    match argmaxFirst cnt l with
    | none => some a
    | some b => if cnt a < cnt b then some b else some a

/-- Model of `Counter(arr).most_common(1)[0][0]` — the most frequent element of
`arr`, ties broken by first insertion; `none` for an empty list. -/
def counterMostCommon [DecidableEq α] [BEq α] (arr : List α) : Option α :=
  argmaxFirst (fun a => arr.count a) (firstOccur arr)

/-- A roster row: the four required columns (현재반 / 이전반 / 학생이름 /
아이디), each cell possibly empty. The worksheet/header machinery of the
source is the parsing layer; the core loops see exactly these four cells
per row. -/
structure RosterRow where
  now : Option String
  prev : Option String
  name : Option String
  id : Option String
deriving DecidableEq

/-- One roster row as consumed by the `analyze_roster_once` loop: rows
with an unparsable current-class label, a missing cell, or an empty
normalized name are skipped; the rest contribute their grade, their
normalized name and (when present) their 4-digit identifier prefix. -/
structure AnalyzedRow where
  grade : Int
  name : String
  pfx : Option Int
deriving DecidableEq

def analyzedRows (rows : List RosterRow) : List AnalyzedRow :=
  rows.filterMap fun row =>
    match row.now, row.name with
    | some clv, some nmv =>
      match parse_class_str clv with
      | some (g, _) =>
        let nm := normalize_name (some nmv)
        if nm = "" then none
        else some ⟨g, nm, extract_id_prefix4 row.id⟩
      | none => none
    | _, _ => none

/-- Identifier prefixes collected at grade `g` (in row order). -/
def prefixes_at_grade (rows : List RosterRow) (g : Int) : List Int :=
  (analyzedRows rows).filterMap fun a => if a.grade = g then a.pfx else none

/-- Source `prefixes_grade1` of `analyze_roster_once`. -/
def grade1_prefixes (rows : List RosterRow) : List Int :=
  prefixes_at_grade rows 1

/-- The statistics record returned by `analyze_roster_once`. Maps are
embedded as total functions (`none` / 0 when a key is absent). -/
structure RosterInfo where
  roster_time : String
  ref_grade_shift : Int
  prefix_mode_by_roster_grade : Int → Option Int
  name_count_by_roster_grade : Int → String → Nat

/-- Source `analyze_roster_once`: per-grade identifier-prefix mode, per-grade
normalized-name counts, and the roster time-version inferred from the
modal grade-1 prefix. -/
def analyze_roster_once (rows : List RosterRow) (input_year : Int) : RosterInfo :=
  let ts : String × Int :=
    match counterMostCommon (grade1_prefixes rows) with
    | none => ("unknown", 0)
    | some mode1 =>
      if mode1 = input_year then ("this_year", 0)
      else if mode1 = input_year - 1 then ("last_year", -1)
      else ("unknown", 0)
  { roster_time := ts.1
    ref_grade_shift := ts.2
    prefix_mode_by_roster_grade := fun g => counterMostCommon (prefixes_at_grade rows g)
    name_count_by_roster_grade := fun g nm =>
      (analyzedRows rows).countP (fun a => a.grade == g && a.name == nm) }

/-- A transfer-in candidate (학년 / 반 / 번호 / 이름), the name already
normalized by the reading layer. `cls` is the source's `"class"` key
(`class` is a Lean keyword). -/
structure TransferRow where
  grade : Int
  cls : String
  number : String
  name : String
deriving DecidableEq

/-- Record `{**tr, "id": uid}` — a transfer candidate with its assigned id. -/
structure AssignedRow where
  row : TransferRow
  id : String
deriving DecidableEq

/-- Record `{**tr, "보류사유": reason}` — a held transfer candidate. -/
structure HeldTransferRow where
  row : TransferRow
  reason : String
deriving DecidableEq

/-- Python `int(x)` for strings: optional surrounding whitespace, an
optional sign, then a nonempty digit run. -/
def pyToInt (s : String) : Option Int :=
  let val : List Char → Option Int := fun ds =>
    if !ds.isEmpty && ds.all Char.isDigit then some (digitsToNat ds : Int) else none
  match stripChars s.data with
  | '-' :: ds => (val ds).map Int.neg
  | '+' :: ds => val ds
  | ds => val ds

/-- Source `_safe_int`: `(0, int(x))` when `x` parses as an integer, else
`(1, str(x))`; embedded as a sum (left before right). -/
def safe_int (x : String) : Int ⊕ String :=
  match pyToInt x with
  | some n => Sum.inl n
  | none => Sum.inr x

def safeIntLt : Int ⊕ String → Int ⊕ String → Prop
  | Sum.inl a, Sum.inl b => a < b
  | Sum.inl _, Sum.inr _ => True
  | Sum.inr _, Sum.inl _ => False
  | Sum.inr a, Sum.inr b => a.data < b.data

instance : DecidableRel safeIntLt := fun a b => by
  cases a <;> cases b <;> simp only [safeIntLt] <;> infer_instance

/-- The sort key `(grade, _safe_int(class), _safe_int(number), name)`
compared lexicographically: the total preorder used by the stable sort
of `build_transfer_ids`. -/
def transferKeyLe (a b : TransferRow) : Prop :=
  a.grade < b.grade ∨ (a.grade = b.grade ∧
    (safeIntLt (safe_int a.cls) (safe_int b.cls) ∨ (¬ safeIntLt (safe_int a.cls) (safe_int b.cls) ∧ ¬ safeIntLt (safe_int b.cls) (safe_int a.cls) ∧
      (safeIntLt (safe_int a.number) (safe_int b.number) ∨ (¬ safeIntLt (safe_int a.number) (safe_int b.number) ∧ ¬ safeIntLt (safe_int b.number) (safe_int a.number) ∧
        ¬ b.name.data < a.name.data)))))

instance : DecidableRel transferKeyLe := fun a b => by
  unfold transferKeyLe; infer_instance

def assignedLe (a b : AssignedRow) : Prop := transferKeyLe a.row b.row

instance : DecidableRel assignedLe := fun a b => by
  unfold assignedLe; infer_instance

def heldLe (a b : HeldTransferRow) : Prop := transferKeyLe a.row b.row

instance : DecidableRel heldLe := fun a b => by
  unfold heldLe; infer_instance

/-- The grade!=1 loop of `build_transfer_ids`. `seen` is the running
`seen_in_transfer_by_grade` counter, carried as the list of
(grade, name) pairs counted so far. Returns (done, hold,
final_prefix_by_current_grade as an association list). -/
def btiLoop (info : RosterInfo) :
    List TransferRow → List (Int × String) →
      List AssignedRow × List HeldTransferRow × List (Int × Int)
  | [], _ => ([], [], [])
  | tr :: rest, seen =>
    let g_roster := tr.grade + info.ref_grade_shift
    match info.prefix_mode_by_roster_grade g_roster with
    | none =>
      let out := btiLoop info rest seen
      (out.1,
       ⟨tr, "명부 학년(" ++ toString g_roster ++ ")에서 ID prefix 최빈값 산출 불가"⟩ :: out.2.1,
       out.2.2)
    | some pref =>
      let base_cnt := info.name_count_by_roster_grade g_roster tr.name
      let seen' := (tr.grade, tr.name) :: seen
      let add_seq : Int := (seen'.count (tr.grade, tr.name) : Nat)
      let suffix := if 0 < base_cnt then dedup_suffix_letters add_seq else ""
      let uid := toString pref ++ tr.name ++ suffix
      let out := btiLoop info rest seen'
      (⟨tr, uid⟩ :: out.1, out.2.1, (tr.grade, pref) :: out.2.2)

/-- Source `build_transfer_ids`: grade-1 candidates get
`input_year + suffixed name` via `apply_suffix_for_duplicates`; other
grades go through the prefix-precedent loop; both outputs are stably
sorted by `(grade, class, number, name)`. -/
def build_transfer_ids (transfer_rows : List TransferRow) (info : RosterInfo)
    (input_year : Int) :
    List AssignedRow × List HeldTransferRow × List (Int × Int) :=
  let grade1 := transfer_rows.filter (fun tr => tr.grade == 1)
  let g1sfx := apply_suffix_for_duplicates (grade1.map (fun tr => tr.name))
  let done1 := (grade1.zip g1sfx).map fun p => AssignedRow.mk p.1 (toString input_year ++ p.2)
  let other := transfer_rows.filter (fun tr => tr.grade != 1)
  let out := btiLoop info other []
  (List.insertionSort assignedLe (done1 ++ out.1),
   List.insertionSort heldLe out.2.1,
   out.2.2)

/-- A withdrawal candidate (학년 / 반 / 성명), class label already
normalized upstream to the full `<grade>-<section>` form. -/
structure WithdrawRow where
  grade : Int
  cls : String
  name : String
deriving DecidableEq

/-- An entry of the `roster_map` / `roster_by_grade_name` indexes:
the class value that produced the key, the row's current-class value
(`now_class`, used for output), the name key/display, the identifier,
and (for the grade index) the parsed grade. -/
structure RosterEntry where
  cls : String
  now_class : String
  name_key : String
  name_disp : String
  id : String
  grade : Int
deriving DecidableEq

/-- Expression `"" if v is None else str(v).strip()` — used for `now_class` and
for identifiers. -/
def strOrEmpty (v : Option String) : String :=
  match v with
  | none => ""
  | some s => pyStrip s

/-- Source `_index_class_map` for one class value of one row: at most one
entry, keyed by `class|name_key`. -/
def index_class_map (class_val : Option String) (now_class_val : Option String)
    (name_key : String) (idv : Option String) (name_disp : String) :
    List (String × RosterEntry) :=
  match class_val with
  | none => []
  | some v =>
    if pyStrip v = "" then []
    else [(pyStrip v ++ "|" ++ name_key,
           ⟨pyStrip v, strOrEmpty now_class_val, name_key, name_disp, strOrEmpty idv, 0⟩)]

/-- The class-map entries contributed by one roster row: both the
current-class and the previous-class value are indexed (rows with a
missing name or an empty name key contribute nothing). -/
def classEntriesOfRow (r : RosterRow) : List (String × RosterEntry) :=
  match r.name with
  | none => []
  | some nmv =>
    if normalize_name_key (some nmv) = "" then []
    else
      index_class_map r.now r.now (normalize_name_key (some nmv)) r.id
        (normalize_name (some nmv)) ++
      index_class_map r.prev r.now (normalize_name_key (some nmv)) r.id
        (normalize_name (some nmv))

/-- Source `roster_map`: the exact (class, name) index over all rows. -/
def rosterClassMap (rows : List RosterRow) : List (String × RosterEntry) :=
  rows.flatMap classEntriesOfRow

/-- Expression `base_class_val = nowv or prevv` (Python truthiness: `None` and the
empty string fall through to the previous-class value). -/
def base_class_val (r : RosterRow) : Option String :=
  match r.now with
  | none => r.prev
  | some s => if s = "" then r.prev else some s

/-- The entry `_index_grade_map` computes for one row before the
dedup-set check: the name guards, the stripped base class value, and
its parsed grade; `none` when any guard fails. -/
def grade_entry_of_row (r : RosterRow) : Option (String × RosterEntry) :=
  match r.name with
  | none => none
  | some nmv =>
    if normalize_name_key (some nmv) = "" then none
    else
      match base_class_val r with
      | none => none
      | some v =>
        if pyStrip v = "" then none
        else
          match parse_class_str (pyStrip v) with
          | none => none
          | some (g, _) =>
            some (toString g ++ "|" ++ normalize_name_key (some nmv),
              ⟨pyStrip v, strOrEmpty r.now, normalize_name_key (some nmv),
               normalize_name (some nmv), strOrEmpty r.id, g⟩)

/-- Source `_index_grade_map` for one row: the entry above, subject to the
cross-row dedup by (grade, name_key, id). Returns the optional entry
and the updated dedup set. -/
def index_grade_map (r : RosterRow) (seen : List (Int × String × String)) :
    Option (String × RosterEntry) × List (Int × String × String) :=
  match grade_entry_of_row r with
  | none => (none, seen)
  | some ke =>
    if (ke.2.grade, ke.2.name_key, ke.2.id) ∈ seen then (none, seen)
    else (some ke, (ke.2.grade, ke.2.name_key, ke.2.id) :: seen)

/-- Source `roster_by_grade_name`: fold of `_index_grade_map` over the rows,
threading the dedup set. -/
def gradeMapAux : List RosterRow → List (Int × String × String) →
    List (String × RosterEntry) × List (Int × String × String)
  | [], seen => ([], seen)
  | r :: rest, seen =>
    match index_grade_map r seen with
    | (none, seen') =>
      gradeMapAux rest seen'
    | (some e, seen') =>
      let out := gradeMapAux rest seen'
      (e :: out.1, out.2)

def rosterGradeMap (rows : List RosterRow) : List (String × RosterEntry) :=
  (gradeMapAux rows []).1

/-- Python `dict[key]`-style lookup over an association list with duplicate
keys: all values for `k`, in insertion order. -/
def mapGet (m : List (String × RosterEntry)) (k : String) : List RosterEntry :=
  (m.filter (fun e => e.1 == k)).map (fun e => e.2)

/-- Python `dict.items()` iteration: distinct keys in first-insertion order,
each with its value list. -/
def mapItems (m : List (String × RosterEntry)) : List (String × List RosterEntry) :=
  (firstOccur (m.map (fun e => e.1))).map (fun k => (k, mapGet m k))

/-- Source `_strip_name_suffix`: remove a trailing `[A-Za-z]+` run from a
name key. -/
def strip_name_suffix (name_key : String) : String :=
  ⟨(name_key.data.reverse.dropWhile isLatinChar).reverse⟩

/-- Expression `k.split("|", 1)[1]`: everything after the first `|`. -/
def afterFirstBar (cs : List Char) : List Char :=
  (cs.dropWhile (fun c => c ≠ '|')).drop 1

/-- Source `_find_suffix_candidates_for_grade`: all grade-map entries at
`grade` whose suffix-stripped name key equals `base_name_key`. -/
def find_suffix_candidates_for_grade (m : List (String × RosterEntry))
    (grade : Int) (base_name_key : String) : List RosterEntry :=
  if grade ≤ 0 || base_name_key = "" then []
  else
    (mapItems m).flatMap fun kv =>
      if (toString grade ++ "|").data.isPrefixOf kv.1.data then
        if strip_name_suffix ⟨afterFirstBar kv.1.data⟩ = base_name_key then kv.2 else []
      else []

/-- A produced withdrawal record (퇴원반명 / 학생이름 / 아이디 / 퇴원일자);
dates are integers. -/
structure WithdrawDone where
  withdraw_class : String
  name : String
  id : String
  date : Int
deriving DecidableEq

/-- A held withdrawal record (학년 / 반 / 성명 / 보류사유). -/
structure WithdrawHold where
  grade : Int
  cls : String
  name : String
  reason : String
deriving DecidableEq

def dupNameReason : String :=
  "보류: 학생명부에서 동명이인(A,B,C 등)으로 구분된 이름 – 자동 매칭하지 않고 수동 확인이 필요합니다."

def autoExcludeReason : String :=
  "자동 제외: 학생명부에 존재하지 않는 학생 – 서버 미등록/학년 불일치 등으로 추정되며 퇴원 처리 대상에서 제외했습니다. (반 매칭 실패, g 또는 g+1 탐색)"

def ambiguousReason (n : Nat) : String :=
  "보류: 학년+이름 후보가 2건 이상(" ++ toString n ++ "건) – 수동 확인 필요. (반 매칭 실패, g 또는 g+1 탐색)"

def dupExactReason (n : Nat) : String :=
  "중복 매칭(" ++ toString n ++ "건)"

/-- The matching cascade of `build_withdraw_outputs` for one candidate
with nonempty name key: exact class+name lookup, grade / grade+1
name fallback, suffix-stripped retry, final duplicate check. Returns
the single matched entry or the held record. -/
def resolveCore (class_map grade_map : List (String × RosterEntry))
    (w : WithdrawRow) (w_name_key : String) : RosterEntry ⊕ WithdrawHold :=
  let ms := mapGet class_map (w.cls ++ "|" ++ w_name_key)
  match ms with
  | [m] => Sum.inl m
  | _ :: _ :: _ => Sum.inr ⟨w.grade, w.cls, w.name, dupExactReason ms.length⟩
  | [] =>
    let cand0 := mapGet grade_map (toString w.grade ++ "|" ++ w_name_key)
    let cand1 := mapGet grade_map (toString (w.grade + 1) ++ "|" ++ w_name_key)
    let cand := cand0 ++ cand1
    match cand with
    | [c] => Sum.inl c
    | _ =>
      let base := strip_name_suffix w_name_key
      match find_suffix_candidates_for_grade grade_map w.grade base with
      | [m] => Sum.inl m
      | _ :: _ :: _ => Sum.inr ⟨w.grade, w.cls, w.name, dupNameReason⟩
      | [] =>
        match find_suffix_candidates_for_grade grade_map (w.grade + 1) base with
        | [m] => Sum.inl m
        | _ :: _ :: _ => Sum.inr ⟨w.grade, w.cls, w.name, dupNameReason⟩
        | [] =>
          if cand.length = 0 then
            Sum.inr ⟨w.grade, w.cls, w.name, autoExcludeReason⟩
          else
            Sum.inr ⟨w.grade, w.cls, w.name, ambiguousReason cand.length⟩

/-- Expression `m.get("now_class") or m.get("class") or w.get("class")`. -/
def finalClassLabel (m : RosterEntry) (w : WithdrawRow) : String :=
  if m.now_class ≠ "" then m.now_class
  else if m.cls ≠ "" then m.cls
  else w.cls

/-- One withdrawal candidate: empty name key is held outright,
otherwise the cascade decides; on acceptance the record carries the
final class label, the matched identifier and the common effective
date. -/
def resolveWithdraw (class_map grade_map : List (String × RosterEntry))
    (eff : Int) (w : WithdrawRow) : WithdrawDone ⊕ WithdrawHold :=
  let k := normalize_name_key (some w.name)
  if k = "" then Sum.inr ⟨w.grade, w.cls, w.name, "성명 정규화(키) 결과가 비어 있음"⟩
  else
    match resolveCore class_map grade_map w k with
    | Sum.inl m => Sum.inl ⟨finalClassLabel m w, w.name, m.id, eff⟩
    | Sum.inr h => Sum.inr h

def sumLefts (l : List (α ⊕ β)) : List α :=
  l.filterMap fun x => match x with
    | Sum.inl a => some a
    | Sum.inr _ => none

def sumRights (l : List (α ⊕ β)) : List β :=
  l.filterMap fun x => match x with
    | Sum.inl _ => none
    | Sum.inr b => some b

/-- Source `build_withdraw_outputs`: index the roster rows, compute the
common effective date, resolve each withdrawal candidate in order, and
split the results into the done and hold lists. -/
def build_withdraw_outputs (rows : List RosterRow) (withdraw_rows : List WithdrawRow)
    (school_start_date work_date : Int) :
    List WithdrawDone × List WithdrawHold :=
  let eff := if work_date < school_start_date then school_start_date else work_date
  let class_map := rosterClassMap rows
  let grade_map := rosterGradeMap rows
  let results := withdraw_rows.map (resolveWithdraw class_map grade_map eff)
  (sumLefts results, sumRights results)

/-- The caller's auto-excluded sub-classification: held records whose
reason is tagged `자동 제외` (`transfer_out_auto_skip` at the call
site). -/
def auto_excluded (hold : List WithdrawHold) : List WithdrawHold :=
  hold.filter (fun h => "자동 제외".data.isPrefixOf h.reason.data)

/-! ## General lemmas about the embedding -/

lemma length_filter_partition {α : Type} (p : α → Bool) (l : List α) :
    (l.filter p).length + (l.filter (fun a => !p a)).length = l.length := by
  induction l with
  | nil => rfl
  | cons a t ih =>
    cases h : p a <;> simp [List.filter_cons, h] <;> omega

lemma asdGo_length (total : String → Nat) :
    ∀ (l : List String) (seen : List String), (asdGo total seen l).length = l.length := by
  intro l
  induction l with
  | nil => intro seen; rfl
  | cons nm rest ih =>
    intro seen
    by_cases h : total (english_casefold_key nm) ≤ 1 <;>
      simp only [asdGo, h, if_true, if_false, List.length_cons, ih]

lemma apply_suffix_length (names : List String) :
    (apply_suffix_for_duplicates names).length = names.length :=
  asdGo_length _ names []

lemma btiLoop_length (info : RosterInfo) :
    ∀ (l : List TransferRow) (seen : List (Int × String)),
      (btiLoop info l seen).1.length + (btiLoop info l seen).2.1.length = l.length := by
  intro l
  induction l with
  | nil => intro seen; rfl
  | cons tr rest ih =>
    intro seen
    cases h : info.prefix_mode_by_roster_grade (tr.grade + info.ref_grade_shift) with
    | none =>
      have h1 := ih seen
      simp only [btiLoop, h, List.length_cons]
      omega
    | some p =>
      have h1 := ih ((tr.grade, tr.name) :: seen)
      simp only [btiLoop, h, List.length_cons]
      omega

lemma sum_split_length {α β : Type} :
    ∀ l : List (α ⊕ β), (sumLefts l).length + (sumRights l).length = l.length := by
  intro l
  induction l with
  | nil => rfl
  | cons x t ih =>
    cases x <;> simp only [sumLefts, sumRights, List.filterMap_cons, List.length_cons] <;>
      simp only [sumLefts, sumRights] at ih <;> omega

lemma build_transfer_done_length (trs : List TransferRow) (info : RosterInfo) (year : Int) :
    (build_transfer_ids trs info year).1.length =
      (trs.filter (fun tr => tr.grade == 1)).length + (btiLoop info (trs.filter (fun tr => tr.grade != 1)) []).1.length := by
  unfold build_transfer_ids
  rw [(List.perm_insertionSort assignedLe _).length_eq, List.length_append,
    List.length_map, List.length_zip, apply_suffix_length, List.length_map, Nat.min_self]

lemma build_transfer_hold_length (trs : List TransferRow) (info : RosterInfo) (year : Int) :
    (build_transfer_ids trs info year).2.1.length =
      (btiLoop info (trs.filter (fun tr => tr.grade != 1)) []).2.1.length := by
  unfold build_transfer_ids
  rw [(List.perm_insertionSort heldLe _).length_eq]

/-- C1. For every input candidate set, the transfer-in assigner and the
withdrawal matcher never drop a candidate: `|done| + |hold|` equals the
number of candidates for `build_transfer_ids` and for
`build_withdraw_outputs`, and the auto-excluded withdrawal records are
a tagged subset of the hold list. -/
theorem C1_no_candidate_dropped (trs : List TransferRow) (info : RosterInfo) (year : Int)
    (rows : List RosterRow) (wrs : List WithdrawRow) (start work : Int) :
    (build_transfer_ids trs info year).1.length +
        (build_transfer_ids trs info year).2.1.length = trs.length ∧
    (build_withdraw_outputs rows wrs start work).1.length +
        (build_withdraw_outputs rows wrs start work).2.length = wrs.length ∧
    ∀ h ∈ auto_excluded (build_withdraw_outputs rows wrs start work).2,
      h ∈ (build_withdraw_outputs rows wrs start work).2 := by
  refine ⟨?_, ?_, ?_⟩
  · rw [build_transfer_done_length, build_transfer_hold_length]
    have h1 := btiLoop_length info (trs.filter (fun tr => tr.grade != 1)) []
    have h2 := length_filter_partition (fun tr : TransferRow => tr.grade == 1) trs
    simp only [bne] at h1 ⊢
    omega
  · unfold build_withdraw_outputs
    simp only
    rw [sum_split_length, List.length_map]
  · intro h hmem
    exact List.mem_of_mem_filter hmem

/-- C1 witness: the subset conjunct instantiated on a concrete run in
which one withdrawal candidate is auto-excluded. -/
theorem C1_no_candidate_dropped_witness :
    (⟨6, "6-1", "박서", autoExcludeReason⟩ : WithdrawHold) ∈
      auto_excluded (build_withdraw_outputs
        [⟨some "3-1", none, some "김민", some "2023a"⟩] [⟨6, "6-1", "박서"⟩] 10 20).2 ∧
    (⟨6, "6-1", "박서", autoExcludeReason⟩ : WithdrawHold) ∈
      (build_withdraw_outputs
        [⟨some "3-1", none, some "김민", some "2023a"⟩] [⟨6, "6-1", "박서"⟩] 10 20).2 :=
  ⟨by decide,
   (C1_no_candidate_dropped [] ⟨"unknown", 0, fun _ => none, fun _ _ => 0⟩ 2024
      [⟨some "3-1", none, some "김민", some "2023a"⟩] [⟨6, "6-1", "박서"⟩] 10 20).2.2
     ⟨6, "6-1", "박서", autoExcludeReason⟩ (by decide)⟩

/-- C2. Roster-time inference uses grade-1 rows only: when the modal
4-digit year-prefix among grade-1 identifiers is `m`, analysis with
`input_year` yields `this_year`/shift 0 when `m = input_year`,
`last_year`/shift -1 when `m = input_year - 1`, and `unknown`/shift 0
otherwise. -/
theorem C2_roster_time_inference (rows : List RosterRow) (year m : Int)
    (h : counterMostCommon (grade1_prefixes rows) = some m) :
    ((m = year → (analyze_roster_once rows year).roster_time = "this_year" ∧
        (analyze_roster_once rows year).ref_grade_shift = 0) ∧
     (m = year - 1 → (analyze_roster_once rows year).roster_time = "last_year" ∧
        (analyze_roster_once rows year).ref_grade_shift = -1) ∧
     (m ≠ year → m ≠ year - 1 → (analyze_roster_once rows year).roster_time = "unknown" ∧
        (analyze_roster_once rows year).ref_grade_shift = 0)) := by
  unfold analyze_roster_once
  rw [h]
  refine ⟨?_, ?_, ?_⟩
  · intro he; subst he; simp
  · intro he; subst he
    by_cases hy : year - 1 = year
    · omega
    · simp [hy]
  · intro h1 h2; simp [h1, h2]

lemma btiLoop_hold_mem (info : RosterInfo) :
    ∀ (l1 : List TransferRow) (seen : List (Int × String)) (tr : TransferRow)
      (l2 : List TransferRow),
      info.prefix_mode_by_roster_grade (tr.grade + info.ref_grade_shift) = none →
      HeldTransferRow.mk tr ("명부 학년(" ++ toString (tr.grade + info.ref_grade_shift) ++
          ")에서 ID prefix 최빈값 산출 불가") ∈ (btiLoop info (l1 ++ tr :: l2) seen).2.1 := by
  intro l1
  induction l1 with
  | nil =>
    intro seen tr l2 h
    simp only [List.nil_append, btiLoop, h]
    exact List.mem_cons_self _ _
  | cons a t ih =>
    intro seen tr l2 h
    simp only [List.cons_append, btiLoop]
    cases ha : info.prefix_mode_by_roster_grade (a.grade + info.ref_grade_shift) with
    | none => exact List.mem_cons_of_mem _ (ih seen tr l2 h)
    | some p => exact ih _ tr l2 h

lemma btiLoop_done_mem (info : RosterInfo) (pref : Int) :
    ∀ (l1 : List TransferRow) (seen : List (Int × String)) (tr : TransferRow)
      (l2 : List TransferRow) (k : Nat),
      info.prefix_mode_by_roster_grade (tr.grade + info.ref_grade_shift) = some pref →
      seen.count (tr.grade, tr.name) +
          l1.countP (fun r => r.grade == tr.grade && r.name == tr.name) = k →
      AssignedRow.mk tr (toString pref ++ tr.name ++
          (if 0 < info.name_count_by_roster_grade (tr.grade + info.ref_grade_shift) tr.name
           then dedup_suffix_letters ((k + 1 : Nat) : Int) else ""))
        ∈ (btiLoop info (l1 ++ tr :: l2) seen).1 := by
  intro l1
  induction l1 with
  | nil =>
    intro seen tr l2 k h hk
    have hnum : ((tr.grade, tr.name) :: seen).count (tr.grade, tr.name) = k + 1 := by
      rw [List.count_cons_self]
      simp only [List.countP_nil] at hk
      omega
    simp only [List.nil_append, btiLoop, h, hnum]
    exact List.mem_cons_self _ _
  | cons a t ih =>
    intro seen tr l2 k h hk
    simp only [List.cons_append, btiLoop]
    cases ha : info.prefix_mode_by_roster_grade (a.grade + info.ref_grade_shift) with
    | none =>
      have hne : (a.grade == tr.grade && a.name == tr.name) = false := by
        by_cases he : a.grade = tr.grade
        · rw [he] at ha; rw [ha] at h; exact Option.noConfusion h
        · have hb : (a.grade == tr.grade) = false := beq_eq_false_iff_ne.mpr he
          simp [hb]
      refine ih seen tr l2 k h ?_
      rw [List.countP_cons, hne] at hk
      simp only [Bool.false_eq_true, if_false] at hk
      omega
    | some p =>
      refine List.mem_cons_of_mem _ (ih ((a.grade, a.name) :: seen) tr l2 k h ?_)
      rw [List.countP_cons] at hk
      rw [List.count_cons]
      by_cases hg2 : a.grade = tr.grade
      · by_cases hn2 : a.name = tr.name
        · have e1 : ((a.grade, a.name) == (tr.grade, tr.name)) = true := by
            rw [hg2, hn2]; exact beq_self_eq_true _
          have e2 : (a.grade == tr.grade && a.name == tr.name) = true := by
            rw [hg2, hn2]; simp
          rw [e1]
          rw [e2] at hk
          simp only [if_true] at hk ⊢
          omega
        · have e1 : ((a.grade, a.name) == (tr.grade, tr.name)) = false := by
            refine beq_eq_false_iff_ne.mpr ?_
            intro hcontra
            rw [Prod.mk.injEq] at hcontra
            exact hn2 hcontra.2
          have e2 : (a.grade == tr.grade && a.name == tr.name) = false := by
            have hb : (a.name == tr.name) = false := beq_eq_false_iff_ne.mpr hn2
            simp [hb]
          rw [e1]
          rw [e2] at hk
          simp only [Bool.false_eq_true, if_false] at hk ⊢
          omega
      · have e1 : ((a.grade, a.name) == (tr.grade, tr.name)) = false := by
          refine beq_eq_false_iff_ne.mpr ?_
          intro hcontra
          rw [Prod.mk.injEq] at hcontra
          exact hg2 hcontra.1
        have e2 : (a.grade == tr.grade && a.name == tr.name) = false := by
          have hb : (a.grade == tr.grade) = false := beq_eq_false_iff_ne.mpr hg2
          simp [hb]
        rw [e1]
        rw [e2] at hk
        simp only [Bool.false_eq_true, if_false] at hk ⊢
        omega

/-- C3. For every transfer candidate with grade != 1 at any position in
the batch: if there is no identifier-prefix precedent for the computed
roster grade the candidate is held with the reason naming that grade;
otherwise it is assigned `prefix + name + suffix`, the suffix being
`dedup_suffix_letters` of the candidate's 1-based same-(grade, name)
occurrence index when the roster already has that name at the roster
grade, and empty otherwise. -/
theorem C3_non_grade1_assignment (trs : List TransferRow) (info : RosterInfo) (year : Int)
    (l1 l2 : List TransferRow) (tr : TransferRow) (_hg : tr.grade ≠ 1)
    (hsplit : trs.filter (fun r => r.grade != 1) = l1 ++ tr :: l2) :
    (info.prefix_mode_by_roster_grade (tr.grade + info.ref_grade_shift) = none →
      HeldTransferRow.mk tr ("명부 학년(" ++ toString (tr.grade + info.ref_grade_shift) ++
          ")에서 ID prefix 최빈값 산출 불가") ∈ (build_transfer_ids trs info year).2.1) ∧
    (∀ pref, info.prefix_mode_by_roster_grade (tr.grade + info.ref_grade_shift) = some pref →
      AssignedRow.mk tr (toString pref ++ tr.name ++
          (if 0 < info.name_count_by_roster_grade (tr.grade + info.ref_grade_shift) tr.name
           then dedup_suffix_letters
             ((l1.countP (fun r => r.grade == tr.grade && r.name == tr.name) + 1 : Nat) : Int)
           else "")) ∈ (build_transfer_ids trs info year).1) := by
  constructor
  · intro h
    have hm := btiLoop_hold_mem info l1 [] tr l2 h
    rw [← hsplit] at hm
    exact (List.perm_insertionSort heldLe _).mem_iff.mpr hm
  · intro pref h
    have hm := btiLoop_done_mem info pref l1 [] tr l2
      (l1.countP (fun r => r.grade == tr.grade && r.name == tr.name)) h (by simp)
    rw [← hsplit] at hm
    exact (List.perm_insertionSort assignedLe _).mem_iff.mpr (List.mem_append_right _ hm)

/-- C3 witness: a two-candidate grade-2 batch against statistics with a
prefix precedent at roster grade 2 and one same-name roster member, and
a grade-3 candidate with no precedent. -/
theorem C3_non_grade1_assignment_witness :
    ((3 : Int) ≠ 1 ∧
      ([⟨2, "1", "1", "김민"⟩, ⟨3, "1", "1", "박서"⟩] :
          List TransferRow).filter (fun r => r.grade != 1) =
        [⟨2, "1", "1", "김민"⟩] ++ ⟨3, "1", "1", "박서"⟩ :: [] ∧
      (analyze_roster_once [⟨some "2-1", none, some "이준", some "2023c"⟩]
          2024).prefix_mode_by_roster_grade ((3 : Int) + 0) = none) ∧
    HeldTransferRow.mk ⟨3, "1", "1", "박서"⟩
        ("명부 학년(" ++ toString ((3 : Int) + (analyze_roster_once
            [⟨some "2-1", none, some "이준", some "2023c"⟩] 2024).ref_grade_shift) ++
          ")에서 ID prefix 최빈값 산출 불가") ∈
      (build_transfer_ids [⟨2, "1", "1", "김민"⟩, ⟨3, "1", "1", "박서"⟩]
        (analyze_roster_once [⟨some "2-1", none, some "이준", some "2023c"⟩] 2024) 2024).2.1 :=
  ⟨⟨by decide, by decide, by decide⟩,
   (C3_non_grade1_assignment [⟨2, "1", "1", "김민"⟩, ⟨3, "1", "1", "박서"⟩]
      (analyze_roster_once [⟨some "2-1", none, some "이준", some "2023c"⟩] 2024) 2024
      [⟨2, "1", "1", "김민"⟩] [] ⟨3, "1", "1", "박서"⟩ (by decide) (by decide)).1 (by decide)⟩

/-- C2 witness: a roster whose grade-1 identifiers are modally prefixed
2024, analyzed with input years 2024 and 2025. -/
theorem C2_roster_time_inference_witness :
    (counterMostCommon (grade1_prefixes
        [⟨some "1-1", none, some "김민준", some "2024a"⟩,
         ⟨some "1-2", none, some "이수", some "2024b"⟩,
         ⟨some "2-1", none, some "박지", some "2023c"⟩]) = some 2024) ∧
    ((analyze_roster_once
        [⟨some "1-1", none, some "김민준", some "2024a"⟩,
         ⟨some "1-2", none, some "이수", some "2024b"⟩,
         ⟨some "2-1", none, some "박지", some "2023c"⟩] 2024).roster_time = "this_year" ∧
      (analyze_roster_once
        [⟨some "1-1", none, some "김민준", some "2024a"⟩,
         ⟨some "1-2", none, some "이수", some "2024b"⟩,
         ⟨some "2-1", none, some "박지", some "2023c"⟩] 2024).ref_grade_shift = 0) ∧
    ((analyze_roster_once
        [⟨some "1-1", none, some "김민준", some "2024a"⟩,
         ⟨some "1-2", none, some "이수", some "2024b"⟩,
         ⟨some "2-1", none, some "박지", some "2023c"⟩] 2025).roster_time = "last_year" ∧
      (analyze_roster_once
        [⟨some "1-1", none, some "김민준", some "2024a"⟩,
         ⟨some "1-2", none, some "이수", some "2024b"⟩,
         ⟨some "2-1", none, some "박지", some "2023c"⟩] 2025).ref_grade_shift = -1) :=
  ⟨by decide,
   (C2_roster_time_inference _ 2024 2024 (by decide)).1 rfl,
   (C2_roster_time_inference _ 2025 2024 (by decide)).2.1 (by decide)⟩

lemma mem_sumLefts {α β : Type} {l : List (α ⊕ β)} {a : α} (h : a ∈ sumLefts l) :
    Sum.inl a ∈ l := by
  unfold sumLefts at h
  rcases List.mem_filterMap.mp h with ⟨x, hx, hmap⟩
  cases x with
  | inl a' =>
    simp only [Option.some.injEq] at hmap
    rw [← hmap]
    exact hx
  | inr b => cases hmap

lemma resolveWithdraw_inl_date (cm gm : List (String × RosterEntry)) (eff : Int)
    (w : WithdrawRow) (rec : WithdrawDone)
    (h : resolveWithdraw cm gm eff w = Sum.inl rec) : rec.date = eff := by
  unfold resolveWithdraw at h
  by_cases hk : normalize_name_key (some w.name) = ""
  · rw [if_pos hk] at h
    cases h
  · rw [if_neg hk] at h
    cases hc : resolveCore cm gm w (normalize_name_key (some w.name)) with
    | inl m => rw [hc] at h; cases h; rfl
    | inr hh => rw [hc] at h; cases h

/-- C9. Every accepted withdrawal record carries the common effective
date `schoolStartDate if workDate < schoolStartDate else workDate`; in
particular it is never earlier than the school start date, and all
records of one run share it. -/
theorem C9_effective_date (rows : List RosterRow) (wrs : List WithdrawRow)
    (start work : Int) :
    ∀ rec ∈ (build_withdraw_outputs rows wrs start work).1,
      rec.date = (if work < start then start else work) ∧
      start ≤ rec.date ∧
      ∀ rec2 ∈ (build_withdraw_outputs rows wrs start work).1, rec2.date = rec.date := by
  have hdate : ∀ r ∈ (build_withdraw_outputs rows wrs start work).1,
      r.date = (if work < start then start else work) := by
    intro r hr
    unfold build_withdraw_outputs at hr
    simp only at hr
    rcases List.mem_map.mp (mem_sumLefts hr) with ⟨w, _, he⟩
    exact resolveWithdraw_inl_date _ _ _ _ _ he
  intro rec hrec
  refine ⟨hdate rec hrec, ?_, ?_⟩
  · rw [hdate rec hrec]
    by_cases hlt : work < start
    · rw [if_pos hlt]
    · rw [if_neg hlt]; omega
  · intro rec2 h2
    rw [hdate rec2 h2, hdate rec hrec]

/-- C9 witness: a run with work date before the school start date; the
single accepted record is dated at the school start. -/
theorem C9_effective_date_witness :
    (⟨"2-3", "김민", "2024KimMin", 30⟩ : WithdrawDone) ∈
      (build_withdraw_outputs [⟨some "2-3", some "1-5", some "김민", some "2024KimMin"⟩]
        [⟨1, "1-5", "김민"⟩] 30 10).1 ∧
    ((⟨"2-3", "김민", "2024KimMin", 30⟩ : WithdrawDone).date =
        (if (10 : Int) < 30 then 30 else 10) ∧
      (30 : Int) ≤ (⟨"2-3", "김민", "2024KimMin", 30⟩ : WithdrawDone).date) :=
  ⟨by decide,
   let h := C9_effective_date [⟨some "2-3", some "1-5", some "김민", some "2024KimMin"⟩]
     [⟨1, "1-5", "김민"⟩] 30 10 ⟨"2-3", "김민", "2024KimMin", 30⟩ (by decide)
   ⟨h.1, h.2.1⟩⟩

/-- C10 (implicit). Two transfer candidates in one batch with the same
grade != 1 and the same name, a prefix precedent at the roster grade
and no same-name roster member there are both assigned, with identical
identifiers `prefix + name`: the assigner does not prevent duplicate
identifiers in this case. -/
theorem C10_duplicate_identifiers (t1 t2 : TransferRow) (info : RosterInfo)
    (year : Int) (pref : Int)
    (hgeq : t2.grade = t1.grade) (hg1 : t1.grade ≠ 1) (hname : t2.name = t1.name)
    (hpref : info.prefix_mode_by_roster_grade (t1.grade + info.ref_grade_shift) = some pref)
    (hcnt : info.name_count_by_roster_grade (t1.grade + info.ref_grade_shift) t1.name = 0) :
    (build_transfer_ids [t1, t2] info year).1.length = 2 ∧
    ∀ r ∈ (build_transfer_ids [t1, t2] info year).1,
      r.id = toString pref ++ t1.name := by
  have e1 : (t1.grade == 1) = false := beq_eq_false_iff_ne.mpr hg1
  have e2 : (t2.grade == 1) = false := beq_eq_false_iff_ne.mpr (by rw [hgeq]; exact hg1)
  have f1 : ([t1, t2].filter (fun tr => tr.grade == 1)) = [] := by
    simp [List.filter, e1, e2]
  have f2 : ([t1, t2].filter (fun tr => tr.grade != 1)) = [t1, t2] := by
    simp [List.filter, bne, e1, e2]
  have hb : btiLoop info [t1, t2] [] =
      ([⟨t1, toString pref ++ t1.name ++ ""⟩, ⟨t2, toString pref ++ t1.name ++ ""⟩],
       [], [(t1.grade, pref), (t2.grade, pref)]) := by
    simp only [btiLoop, hgeq, hname, hpref, hcnt, lt_irrefl, if_false]
  have hdone : (build_transfer_ids [t1, t2] info year).1 =
      List.insertionSort assignedLe
        [⟨t1, toString pref ++ t1.name ++ ""⟩, ⟨t2, toString pref ++ t1.name ++ ""⟩] := by
    unfold build_transfer_ids
    rw [f1, f2]
    simp [hb]
  constructor
  · rw [hdone, (List.perm_insertionSort assignedLe _).length_eq]; rfl
  · intro r hr
    rw [hdone] at hr
    have hm := (List.perm_insertionSort assignedLe _).mem_iff.mp hr
    have happ : toString pref ++ t1.name ++ "" = toString pref ++ t1.name := by
      simp
    rcases List.mem_cons.mp hm with h | h
    · rw [h]; exact happ
    · rw [List.mem_singleton.mp h]; exact happ

/-- C10 witness: a concrete two-candidate batch receiving the same
identifier `2023김민`. -/
theorem C10_duplicate_identifiers_witness :
    ((3 : Int) = 3 ∧ (3 : Int) ≠ 1 ∧
      (⟨"this_year", 0, fun g => if g = 3 then some 2023 else none,
          fun _ _ => 0⟩ : RosterInfo).prefix_mode_by_roster_grade ((3 : Int) + 0) = some 2023) ∧
    ((build_transfer_ids [⟨3, "1", "1", "김민"⟩, ⟨3, "2", "5", "김민"⟩]
        ⟨"this_year", 0, fun g => if g = 3 then some 2023 else none, fun _ _ => 0⟩ 2024).1.length = 2 ∧
      ∀ r ∈ (build_transfer_ids [⟨3, "1", "1", "김민"⟩, ⟨3, "2", "5", "김민"⟩]
        ⟨"this_year", 0, fun g => if g = 3 then some 2023 else none, fun _ _ => 0⟩ 2024).1,
        r.id = toString (2023 : Int) ++ "김민") :=
  ⟨⟨rfl, by decide, by decide⟩,
   C10_duplicate_identifiers ⟨3, "1", "1", "김민"⟩ ⟨3, "2", "5", "김민"⟩
     ⟨"this_year", 0, fun g => if g = 3 then some 2023 else none, fun _ _ => 0⟩ 2024 2023
     rfl (by decide) rfl (by decide) (by decide)⟩

lemma dedupSuffixAux_fuel :
    ∀ (v f f' : Nat), v ≤ f → v ≤ f' → dedupSuffixAux f v = dedupSuffixAux f' v := by
  intro v
  induction v using Nat.strong_induction_on with
  | _ v ih =>
    intro f f' hf hf'
    cases v with
    | zero => cases f <;> cases f' <;> rfl
    | succ n =>
      cases f with
      | zero => omega
      | succ f0 =>
        cases f' with
        | zero => omega
        | succ f0' =>
          show dedupSuffixAux f0 (n / 26) ++ _ = dedupSuffixAux f0' (n / 26) ++ _
          congr 1
          refine ih (n / 26) ?_ f0 f0' ?_ ?_ <;>
            have := Nat.div_le_self n 26 <;> omega

lemma dedupSuffixGo_succ (n : Nat) :
    dedupSuffixGo (n + 1) = dedupSuffixGo (n / 26) ++ [Char.ofNat (65 + n % 26)] := by
  show dedupSuffixAux n (n / 26) ++ _ = dedupSuffixAux (n / 26) (n / 26) ++ _
  congr 1
  exact dedupSuffixAux_fuel (n / 26) n (n / 26) (Nat.le_trans (Nat.div_le_self n 26)
    (Nat.le_refl n)) (Nat.le_refl _)

lemma char_digit_lt : ∀ x < 26, ∀ y < 26, x < y →
    Char.ofNat (65 + x) < Char.ofNat (65 + y) := by decide

/-- Strict shortlex order on character lists: shorter first, equal
lengths compared lexicographically. -/
def slexLt (xs ys : List Char) : Prop :=
  xs.length < ys.length ∨ (xs.length = ys.length ∧ List.Lex (· < ·) xs ys)

/-- Strict shortlex order on strings — the order in which
`dedup_suffix_letters` values enumerate: A < B < ... < Z < AA < AB < ... -/
def shortlexLt (a b : String) : Prop :=
  slexLt a.data b.data

lemma lex_append_last {r : Char → Char → Prop} :
    ∀ (p : List Char) {c d : Char}, r c d → List.Lex r (p ++ [c]) (p ++ [d]) := by
  intro p
  induction p with
  | nil => intro c d h; exact List.Lex.rel h
  | cons a t ih => intro c d h; exact List.Lex.cons (ih h)

lemma lex_append_of_lex {r : Char → Char → Prop} :
    ∀ {xs ys : List Char}, List.Lex r xs ys → xs.length = ys.length →
      ∀ (zs ws : List Char), List.Lex r (xs ++ zs) (ys ++ ws) := by
  intro xs ys h
  induction h with
  | nil => intro hlen; cases hlen
  | rel hr => intro _ zs ws; exact List.Lex.rel hr
  | cons h ih =>
    intro hlen zs ws
    exact List.Lex.cons (ih (by simpa using hlen) zs ws)

lemma dedupGo_slex : ∀ b a : Nat, a < b → slexLt (dedupSuffixGo a) (dedupSuffixGo b) := by
  intro b
  induction b using Nat.strong_induction_on with
  | _ b ih =>
    intro a hab
    cases b with
    | zero => omega
    | succ n =>
      rw [dedupSuffixGo_succ]
      cases a with
      | zero =>
        left
        show (dedupSuffixGo 0).length < _
        simp only [dedupSuffixGo, dedupSuffixAux, List.length_nil, List.length_append,
          List.length_cons]
        omega
      | succ m =>
        rw [dedupSuffixGo_succ]
        have hmn : m < n := by omega
        by_cases hq : m / 26 = n / 26
        · right
          refine ⟨by simp [hq], ?_⟩
          rw [hq]
          refine lex_append_last _ ?_
          have hmod : m % 26 < n % 26 := by omega
          exact char_digit_lt (m % 26) (Nat.mod_lt _ (by norm_num)) (n % 26)
            (Nat.mod_lt _ (by norm_num)) hmod
        · have hqle : m / 26 ≤ n / 26 := Nat.div_le_div_right (Nat.le_of_lt hmn)
          have hqlt : m / 26 < n / 26 := by omega
          have hrec := ih (n / 26) (by have := Nat.div_le_self n 26; omega) (m / 26) hqlt
          rcases hrec with h | ⟨hlen, hlex⟩
          · left
            simp only [List.length_append, List.length_cons, List.length_nil]
            omega
          · right
            refine ⟨by simp [hlen], ?_⟩
            exact lex_append_of_lex hlex hlen _ _

/-- C8. `dedup_suffix_letters` is the bijective base-26 numeral over
A–Z: the landmark values hold, and the function is strictly monotone
for the shortlex order on its outputs (hence deterministic, injective
and order-compatible on n >= 1). -/
theorem C8_dedup_suffix :
    dedup_suffix_letters 1 = "A" ∧ dedup_suffix_letters 26 = "Z" ∧
    dedup_suffix_letters 27 = "AA" ∧ dedup_suffix_letters 52 = "AZ" ∧
    dedup_suffix_letters 53 = "BA" ∧
    ∀ m n : Int, 1 ≤ m → m < n →
      shortlexLt (dedup_suffix_letters m) (dedup_suffix_letters n) := by
  refine ⟨by decide, by decide, by decide, by decide, by decide, ?_⟩
  intro m n hm hmn
  have hm0 : ¬ m ≤ 0 := by omega
  have hn0 : ¬ n ≤ 0 := by omega
  unfold dedup_suffix_letters shortlexLt
  rw [if_neg hm0, if_neg hn0]
  exact dedupGo_slex n.toNat m.toNat (by omega)

/-- C8 witness: the order statement applied at 1 < 2, giving
"A" before "B" in shortlex order. -/
theorem C8_dedup_suffix_witness :
    (1 : Int) ≤ 1 ∧ (1 : Int) < 2 ∧
      shortlexLt (dedup_suffix_letters 1) (dedup_suffix_letters 2) :=
  ⟨by norm_num, by norm_num, C8_dedup_suffix.2.2.2.2.2 1 2 (by norm_num) (by norm_num)⟩

lemma asdGo_get (total : String → Nat) :
    ∀ (l1 : List String) (seen : List String) (nm : String) (l2 : List String) (j : Nat),
      seen.count (english_casefold_key nm) +
          l1.countP (fun x => english_casefold_key x == english_casefold_key nm) = j →
      (asdGo total seen (l1 ++ nm :: l2)).get? l1.length =
        some (if total (english_casefold_key nm) ≤ 1 then nm
              else nm ++ dedup_suffix_letters ((j : Nat) + 1 : Int)) := by
  intro l1
  induction l1 with
  | nil =>
    intro seen nm l2 j hj
    simp only [List.countP_nil, Nat.add_zero] at hj
    subst hj
    simp only [List.nil_append, asdGo, List.length_nil]
    by_cases ht : total (english_casefold_key nm) ≤ 1
    · rw [if_pos ht, if_pos ht]; rfl
    · rw [if_neg ht, if_neg ht]
      have : ((seen.count (english_casefold_key nm) : Int)) + 1 =
          ((seen.count (english_casefold_key nm) + 1 : Nat) : Int) := by push_cast; ring
      rw [this]
      rfl
  | cons a t ih =>
    intro seen nm l2 j hj
    rw [List.countP_cons] at hj
    simp only [List.cons_append, asdGo, List.length_cons]
    by_cases hta : total (english_casefold_key a) ≤ 1
    · rw [if_pos hta, List.get?_cons_succ]
      by_cases hknm : english_casefold_key a = english_casefold_key nm
      · have htnm : total (english_casefold_key nm) ≤ 1 := hknm ▸ hta
        have := ih seen nm l2
          (seen.count (english_casefold_key nm) +
            t.countP (fun x => english_casefold_key x == english_casefold_key nm)) rfl
        rw [if_pos htnm] at this ⊢
        exact this
      · have hne : (english_casefold_key a == english_casefold_key nm) = false :=
          beq_eq_false_iff_ne.mpr hknm
        rw [hne] at hj
        simp only [Bool.false_eq_true, if_false, Nat.add_zero] at hj
        exact ih seen nm l2 j hj
    · rw [if_neg hta, List.get?_cons_succ]
      refine ih (english_casefold_key a :: seen) nm l2 j ?_
      rw [List.count_cons]
      by_cases hknm : english_casefold_key a = english_casefold_key nm
      · have e2 : (english_casefold_key a == english_casefold_key nm) = true := by
          rw [hknm]; exact beq_self_eq_true _
        rw [e2]
        rw [e2] at hj
        simp only [if_true] at hj ⊢
        omega
      · have e2 : (english_casefold_key a == english_casefold_key nm) = false :=
          beq_eq_false_iff_ne.mpr hknm
        rw [e2]
        rw [e2] at hj
        simp only [Bool.false_eq_true, if_false] at hj ⊢
        omega

lemma zip_map_mem {γ : Type} (f : TransferRow × String → γ) :
    ∀ (l1 : List TransferRow) (tr : TransferRow) (l2 : List TransferRow)
      (sfx : List String) (s : String),
      sfx.get? l1.length = some s →
      f (tr, s) ∈ ((l1 ++ tr :: l2).zip sfx).map f := by
  intro l1
  induction l1 with
  | nil =>
    intro tr l2 sfx s hget
    cases sfx with
    | nil => cases hget
    | cons s0 rest =>
      simp only [List.length_nil, List.get?_cons_zero, Option.some.injEq] at hget
      subst hget
      simp only [List.nil_append, List.zip_cons_cons, List.map_cons]
      exact List.mem_cons_self _ _
  | cons a t ih =>
    intro tr l2 sfx s hget
    cases sfx with
    | nil => cases hget
    | cons s0 rest =>
      simp only [List.length_cons, List.get?_cons_succ] at hget
      simp only [List.cons_append, List.zip_cons_cons, List.map_cons]
      exact List.mem_cons_of_mem _ (ih tr l2 rest s hget)

lemma btiLoop_hold_row_mem (info : RosterInfo) :
    ∀ (l : List TransferRow) (seen : List (Int × String)) (h : HeldTransferRow),
      h ∈ (btiLoop info l seen).2.1 → h.row ∈ l := by
  intro l
  induction l with
  | nil => intro seen h hm; cases hm
  | cons tr rest ih =>
    intro seen h hm
    simp only [btiLoop] at hm
    cases hp : info.prefix_mode_by_roster_grade (tr.grade + info.ref_grade_shift) with
    | none =>
      rw [hp] at hm
      rcases List.mem_cons.mp hm with he | he
      · rw [he]; exact List.mem_cons_self _ _
      · exact List.mem_cons_of_mem _ (ih seen h he)
    | some p =>
      rw [hp] at hm
      exact List.mem_cons_of_mem _ (ih _ h hm)

/-- C7. `apply_suffix_for_duplicates` preserves length and maps the
element at each position to itself when its casefolded key is unique in
the batch, and to itself plus `dedup_suffix_letters` of its 1-based
occurrence index otherwise; consequently every grade-1 transfer
candidate is assigned (never held) with identifier
`input_year + suffixed name`, and two grade-1 candidates with an
identical normalized name receive suffixes "A" then "B" in input
order. -/
theorem C7_grade1_suffix_allocation :
    (∀ names : List String,
      (apply_suffix_for_duplicates names).length = names.length) ∧
    (∀ (l1 : List String) (nm : String) (l2 : List String),
      (apply_suffix_for_duplicates (l1 ++ nm :: l2)).get? l1.length =
        some (if ((l1 ++ nm :: l2).map english_casefold_key).count
                  (english_casefold_key nm) ≤ 1
              then nm
              else nm ++ dedup_suffix_letters
                ((l1.countP (fun x => english_casefold_key x ==
                    english_casefold_key nm) + 1 : Nat) : Int))) ∧
    (∀ (trs : List TransferRow) (info : RosterInfo) (year : Int)
       (l1 : List TransferRow) (tr : TransferRow) (l2 : List TransferRow),
      trs.filter (fun r => r.grade == 1) = l1 ++ tr :: l2 →
      ∃ s, (apply_suffix_for_duplicates
              ((trs.filter (fun r => r.grade == 1)).map (fun r => r.name))).get?
            l1.length = some s ∧
        AssignedRow.mk tr (toString year ++ s) ∈ (build_transfer_ids trs info year).1) ∧
    (∀ (trs : List TransferRow) (info : RosterInfo) (year : Int),
      ∀ h ∈ (build_transfer_ids trs info year).2.1, h.row.grade ≠ 1) ∧
    (∀ (t1 t2 : TransferRow) (info : RosterInfo) (year : Int),
      t1.grade = 1 → t2.grade = 1 →
      english_casefold_key t2.name = english_casefold_key t1.name →
      AssignedRow.mk t1 (toString year ++ (t1.name ++ "A")) ∈
          (build_transfer_ids [t1, t2] info year).1 ∧
      AssignedRow.mk t2 (toString year ++ (t2.name ++ "B")) ∈
          (build_transfer_ids [t1, t2] info year).1) := by
  have h2 : ∀ (l1 : List String) (nm : String) (l2 : List String),
      (apply_suffix_for_duplicates (l1 ++ nm :: l2)).get? l1.length =
        some (if ((l1 ++ nm :: l2).map english_casefold_key).count
                  (english_casefold_key nm) ≤ 1
              then nm
              else nm ++ dedup_suffix_letters
                ((l1.countP (fun x => english_casefold_key x ==
                    english_casefold_key nm) + 1 : Nat) : Int)) := by
    intro l1 nm l2
    have := asdGo_get (fun k => ((l1 ++ nm :: l2).map english_casefold_key).count k)
      l1 [] nm l2 (l1.countP (fun x => english_casefold_key x == english_casefold_key nm))
      (by simp)
    exact this
  refine ⟨apply_suffix_length, h2, ?_, ?_, ?_⟩
  · intro trs info year l1 tr l2 hsplit
    have hlen : l1.length <
        ((trs.filter (fun r => r.grade == 1)).map (fun r => r.name)).length := by
      rw [hsplit]
      simp
    have hlen2 : l1.length <
        (apply_suffix_for_duplicates
          ((trs.filter (fun r => r.grade == 1)).map (fun r => r.name))).length := by
      rw [apply_suffix_length]
      exact hlen
    obtain ⟨s, hs⟩ : ∃ s, (apply_suffix_for_duplicates
        ((trs.filter (fun r => r.grade == 1)).map (fun r => r.name))).get? l1.length =
          some s := ⟨_, List.get?_eq_get hlen2⟩
    refine ⟨s, hs, ?_⟩
    unfold build_transfer_ids
    refine (List.perm_insertionSort assignedLe _).mem_iff.mpr (List.mem_append_left _ ?_)
    rw [hsplit] at hs ⊢
    exact zip_map_mem _ l1 tr l2 _ s hs
  · intro trs info year h hm
    unfold build_transfer_ids at hm
    have hmem := (List.perm_insertionSort heldLe _).mem_iff.mp hm
    have hrow := btiLoop_hold_row_mem info _ [] h hmem
    have := List.of_mem_filter hrow
    exact bne_iff_ne.mp this
  · intro t1 t2 info year hg1 hg2 hkey
    have e1 : (t1.grade == 1) = true := by rw [hg1]; exact beq_self_eq_true _
    have e2 : (t2.grade == 1) = true := by rw [hg2]; exact beq_self_eq_true _
    have f1 : ([t1, t2].filter (fun tr => tr.grade == 1)) = [t1, t2] := by
      simp [List.filter, e1, e2]
    have f2 : ([t1, t2].filter (fun tr => tr.grade != 1)) = [] := by
      simp [List.filter, bne, e1, e2]
    have hcnt2 : (List.map english_casefold_key [t1.name, t2.name]).count
        (english_casefold_key t1.name) = 2 := by
      simp [List.count_cons, hkey]
    have hA : dedup_suffix_letters ((0 : Int) + 1) = "A" := by norm_num; decide
    have hB : dedup_suffix_letters ((1 : Int) + 1) = "B" := by norm_num; decide
    have hasd : apply_suffix_for_duplicates [t1.name, t2.name] =
        [t1.name ++ "A", t2.name ++ "B"] := by
      unfold apply_suffix_for_duplicates
      simp only [asdGo, hkey, hcnt2, List.count_nil, List.count_cons_self,
        Nat.cast_zero, Nat.cast_one]
      norm_num
      exact ⟨hA ▸ by norm_num, hB ▸ by norm_num⟩
    constructor
    · unfold build_transfer_ids
      refine (List.perm_insertionSort assignedLe _).mem_iff.mpr (List.mem_append_left _ ?_)
      rw [f1]
      simp only [List.map_cons, List.map_nil, hasd, List.zip_cons_cons, List.zip_nil_right,
        List.map_cons, List.map_nil]
      exact List.mem_cons_self _ _
    · unfold build_transfer_ids
      refine (List.perm_insertionSort assignedLe _).mem_iff.mpr (List.mem_append_left _ ?_)
      rw [f1]
      simp only [List.map_cons, List.map_nil, hasd, List.zip_cons_cons, List.zip_nil_right,
        List.map_cons, List.map_nil]
      exact List.mem_cons_of_mem _ (List.mem_cons_self _ _)

/-- C7 witness: the elementwise suffix characterization applied to the
concrete batch ["김민", "이준", "김민"], whose second duplicate receives
suffix "B". -/
theorem C7_grade1_suffix_allocation_witness :
    (apply_suffix_for_duplicates (["김민", "이준"] ++ "김민" :: [])).get? 2 =
      some (if ((["김민", "이준"] ++ "김민" :: []).map english_casefold_key).count
                (english_casefold_key "김민") ≤ 1
            then "김민"
            else "김민" ++ dedup_suffix_letters
              ((["김민", "이준"].countP (fun x => english_casefold_key x ==
                  english_casefold_key "김민") + 1 : Nat) : Int)) :=
  C7_grade1_suffix_allocation.2.1 ["김민", "이준"] "김민" []

/-- C4 counterexample. A roster with the same name at grades 3 and 4
and a withdrawal candidate at grade 3 with no exact class match: the
exact lookup is empty and the grade/grade+1 union has two candidates,
yet the candidate is auto-accepted (via the suffix-stripped retry at
its own grade), not held with the ambiguous-match reason. -/
theorem C4_counterexample :
    mapGet (rosterClassMap [⟨some "3-1", none, some "김민", some "2023a"⟩,
        ⟨some "4-1", none, some "김민", some "2022b"⟩])
      ("3-9" ++ "|" ++ normalize_name_key (some "김민")) = [] ∧
    (mapGet (rosterGradeMap [⟨some "3-1", none, some "김민", some "2023a"⟩,
        ⟨some "4-1", none, some "김민", some "2022b"⟩])
        (toString (3 : Int) ++ "|" ++ normalize_name_key (some "김민")) ++
      mapGet (rosterGradeMap [⟨some "3-1", none, some "김민", some "2023a"⟩,
        ⟨some "4-1", none, some "김민", some "2022b"⟩])
        (toString (3 + 1 : Int) ++ "|" ++ normalize_name_key (some "김민"))).length = 2 ∧
    build_withdraw_outputs [⟨some "3-1", none, some "김민", some "2023a"⟩,
        ⟨some "4-1", none, some "김민", some "2022b"⟩] [⟨3, "3-9", "김민"⟩] 10 20 =
      ([⟨"3-1", "김민", "2023a", 20⟩], []) := by
  refine ⟨by decide, by decide, by decide⟩

lemma resolveCore_fallback (class_map grade_map : List (String × RosterEntry))
    (w : WithdrawRow) (k : String)
    (hexact : mapGet class_map (w.cls ++ "|" ++ k) = [])
    (hcand : 2 ≤ (mapGet grade_map (toString w.grade ++ "|" ++ k) ++
        mapGet grade_map (toString (w.grade + 1) ++ "|" ++ k)).length) :
    (∀ m, find_suffix_candidates_for_grade grade_map w.grade (strip_name_suffix k) = [m] →
      resolveCore class_map grade_map w k = Sum.inl m) ∧
    (2 ≤ (find_suffix_candidates_for_grade grade_map w.grade (strip_name_suffix k)).length →
      resolveCore class_map grade_map w k = Sum.inr ⟨w.grade, w.cls, w.name, dupNameReason⟩) ∧
    (find_suffix_candidates_for_grade grade_map w.grade (strip_name_suffix k) = [] →
      ∀ m, find_suffix_candidates_for_grade grade_map (w.grade + 1) (strip_name_suffix k) = [m] →
      resolveCore class_map grade_map w k = Sum.inl m) ∧
    (find_suffix_candidates_for_grade grade_map w.grade (strip_name_suffix k) = [] →
      2 ≤ (find_suffix_candidates_for_grade grade_map (w.grade + 1) (strip_name_suffix k)).length →
      resolveCore class_map grade_map w k = Sum.inr ⟨w.grade, w.cls, w.name, dupNameReason⟩) ∧
    (find_suffix_candidates_for_grade grade_map w.grade (strip_name_suffix k) = [] →
      find_suffix_candidates_for_grade grade_map (w.grade + 1) (strip_name_suffix k) = [] →
      resolveCore class_map grade_map w k = Sum.inr ⟨w.grade, w.cls, w.name,
        ambiguousReason (mapGet grade_map (toString w.grade ++ "|" ++ k) ++
          mapGet grade_map (toString (w.grade + 1) ++ "|" ++ k)).length⟩) := by
  obtain ⟨c1, c2, rest, hsh⟩ : ∃ c1 c2 rest,
      mapGet grade_map (toString w.grade ++ "|" ++ k) ++
        mapGet grade_map (toString (w.grade + 1) ++ "|" ++ k) = c1 :: c2 :: rest := by
    cases hc : mapGet grade_map (toString w.grade ++ "|" ++ k) ++
        mapGet grade_map (toString (w.grade + 1) ++ "|" ++ k) with
    | nil => rw [hc] at hcand; simp at hcand
    | cons c1 rest1 =>
      cases rest1 with
      | nil => rw [hc] at hcand; simp at hcand
      | cons c2 rest => exact ⟨c1, c2, rest, rfl⟩
  refine ⟨?_, ?_, ?_, ?_, ?_⟩
  · intro m hm
    simp only [resolveCore, hexact, hsh, hm]
  · intro hlen
    obtain ⟨m1, m2, mrest, hm⟩ : ∃ m1 m2 mrest,
        find_suffix_candidates_for_grade grade_map w.grade (strip_name_suffix k) =
          m1 :: m2 :: mrest := by
      cases hc : find_suffix_candidates_for_grade grade_map w.grade (strip_name_suffix k) with
      | nil => rw [hc] at hlen; simp at hlen
      | cons m1 r1 =>
        cases r1 with
        | nil => rw [hc] at hlen; simp at hlen
        | cons m2 mrest => exact ⟨m1, m2, mrest, rfl⟩
    simp only [resolveCore, hexact, hsh, hm]
  · intro h0 m hm
    simp only [resolveCore, hexact, hsh, h0, hm]
  · intro h0 hlen
    obtain ⟨m1, m2, mrest, hm⟩ : ∃ m1 m2 mrest,
        find_suffix_candidates_for_grade grade_map (w.grade + 1) (strip_name_suffix k) =
          m1 :: m2 :: mrest := by
      cases hc : find_suffix_candidates_for_grade grade_map (w.grade + 1)
          (strip_name_suffix k) with
      | nil => rw [hc] at hlen; simp at hlen
      | cons m1 r1 =>
        cases r1 with
        | nil => rw [hc] at hlen; simp at hlen
        | cons m2 mrest => exact ⟨m1, m2, mrest, rfl⟩
    simp only [resolveCore, hexact, hsh, h0, hm]
  · intro h0 h1
    simp only [resolveCore, hexact, hsh, h0, h1]
    simp

/-- C4 amended. When the exact lookup yields zero matches and the
grade/grade+1 union has two or more candidates, the matcher does not
hold immediately: it runs the suffix-stripped retry. It accepts
automatically when the retry finds exactly one candidate at the
candidate's grade (or, failing that, at grade+1); it holds with the
duplicate-name manual-confirmation reason when the retry finds two or
more; only when the retry finds none at both grades is the candidate
held with the reason naming the ambiguous candidate count. -/
theorem C4_amended_two_candidate_fallback (class_map grade_map : List (String × RosterEntry))
    (eff : Int) (w : WithdrawRow) (k : String)
    (hk : normalize_name_key (some w.name) = k) (hkne : k ≠ "")
    (hexact : mapGet class_map (w.cls ++ "|" ++ k) = [])
    (hcand : 2 ≤ (mapGet grade_map (toString w.grade ++ "|" ++ k) ++
        mapGet grade_map (toString (w.grade + 1) ++ "|" ++ k)).length) :
    (∀ m, find_suffix_candidates_for_grade grade_map w.grade (strip_name_suffix k) = [m] →
      resolveWithdraw class_map grade_map eff w =
        Sum.inl ⟨finalClassLabel m w, w.name, m.id, eff⟩) ∧
    (2 ≤ (find_suffix_candidates_for_grade grade_map w.grade (strip_name_suffix k)).length →
      resolveWithdraw class_map grade_map eff w =
        Sum.inr ⟨w.grade, w.cls, w.name, dupNameReason⟩) ∧
    (find_suffix_candidates_for_grade grade_map w.grade (strip_name_suffix k) = [] →
      ∀ m, find_suffix_candidates_for_grade grade_map (w.grade + 1) (strip_name_suffix k) = [m] →
      resolveWithdraw class_map grade_map eff w =
        Sum.inl ⟨finalClassLabel m w, w.name, m.id, eff⟩) ∧
    (find_suffix_candidates_for_grade grade_map w.grade (strip_name_suffix k) = [] →
      2 ≤ (find_suffix_candidates_for_grade grade_map (w.grade + 1) (strip_name_suffix k)).length →
      resolveWithdraw class_map grade_map eff w =
        Sum.inr ⟨w.grade, w.cls, w.name, dupNameReason⟩) ∧
    (find_suffix_candidates_for_grade grade_map w.grade (strip_name_suffix k) = [] →
      find_suffix_candidates_for_grade grade_map (w.grade + 1) (strip_name_suffix k) = [] →
      resolveWithdraw class_map grade_map eff w =
        Sum.inr ⟨w.grade, w.cls, w.name,
          ambiguousReason (mapGet grade_map (toString w.grade ++ "|" ++ k) ++
            mapGet grade_map (toString (w.grade + 1) ++ "|" ++ k)).length⟩) := by
  have hcore := resolveCore_fallback class_map grade_map w k hexact hcand
  have hwrap : ∀ res, resolveCore class_map grade_map w k = res →
      resolveWithdraw class_map grade_map eff w =
        (match res with
         | Sum.inl m => Sum.inl ⟨finalClassLabel m w, w.name, m.id, eff⟩
         | Sum.inr h => Sum.inr h) := by
    intro res hres
    unfold resolveWithdraw
    rw [hk, if_neg hkne, hres]
  refine ⟨?_, ?_, ?_, ?_, ?_⟩
  · intro m hm; exact hwrap _ (hcore.1 m hm)
  · intro hlen; exact hwrap _ (hcore.2.1 hlen)
  · intro h0 m hm; exact hwrap _ (hcore.2.2.1 h0 m hm)
  · intro h0 hlen; exact hwrap _ (hcore.2.2.2.1 h0 hlen)
  · intro h0 h1; exact hwrap _ (hcore.2.2.2.2 h0 h1)

/-- C4 amended witness: a Latin-only duplicate name (suffix stripping
yields an empty base, so the retry finds nothing) is held with the
candidate-count reason on a concrete two-row roster. -/
theorem C4_amended_two_candidate_fallback_witness :
    (normalize_name_key (some "James") = "james" ∧ "james" ≠ "" ∧
      mapGet (rosterClassMap [⟨some "3-1", none, some "James", some "2023a"⟩,
          ⟨some "3-2", none, some "James", some "2022b"⟩])
        ("3-9" ++ "|" ++ "james") = [] ∧
      2 ≤ (mapGet (rosterGradeMap [⟨some "3-1", none, some "James", some "2023a"⟩,
          ⟨some "3-2", none, some "James", some "2022b"⟩])
          (toString (3 : Int) ++ "|" ++ "james") ++
        mapGet (rosterGradeMap [⟨some "3-1", none, some "James", some "2023a"⟩,
          ⟨some "3-2", none, some "James", some "2022b"⟩])
          (toString ((3 : Int) + 1) ++ "|" ++ "james")).length ∧
      find_suffix_candidates_for_grade
        (rosterGradeMap [⟨some "3-1", none, some "James", some "2023a"⟩,
          ⟨some "3-2", none, some "James", some "2022b"⟩]) 3 (strip_name_suffix "james") = [] ∧
      find_suffix_candidates_for_grade
        (rosterGradeMap [⟨some "3-1", none, some "James", some "2023a"⟩,
          ⟨some "3-2", none, some "James", some "2022b"⟩]) (3 + 1) (strip_name_suffix "james") = []) ∧
    resolveWithdraw
        (rosterClassMap [⟨some "3-1", none, some "James", some "2023a"⟩,
          ⟨some "3-2", none, some "James", some "2022b"⟩])
        (rosterGradeMap [⟨some "3-1", none, some "James", some "2023a"⟩,
          ⟨some "3-2", none, some "James", some "2022b"⟩]) 20 ⟨3, "3-9", "James"⟩ =
      Sum.inr ⟨3, "3-9", "James",
        ambiguousReason (mapGet (rosterGradeMap [⟨some "3-1", none, some "James", some "2023a"⟩,
            ⟨some "3-2", none, some "James", some "2022b"⟩])
            (toString ((3 : Int)) ++ "|" ++ "james") ++
          mapGet (rosterGradeMap [⟨some "3-1", none, some "James", some "2023a"⟩,
            ⟨some "3-2", none, some "James", some "2022b"⟩])
            (toString ((3 : Int) + 1) ++ "|" ++ "james")).length⟩ :=
  ⟨⟨by decide, by decide, by decide, by decide, by decide, by decide⟩,
   (C4_amended_two_candidate_fallback _ _ 20 ⟨3, "3-9", "James"⟩ "james"
      (by decide) (by decide) (by decide) (by decide)).2.2.2.2 (by decide) (by decide)⟩

/-- What any index entry drawn from a roster row looks like: its
`now_class` is the row's stripped current-class value, and the class
value that produced its key is one of the row's two class fields
(stripped, nonempty). -/
def entryFromRow (r : RosterRow) (e : RosterEntry) : Prop :=
  e.now_class = strOrEmpty r.now ∧ e.cls ≠ "" ∧
    (e.cls = strOrEmpty r.now ∨ e.cls = strOrEmpty r.prev)

lemma base_cls_cases (r : RosterRow) (v : String) (hbase : base_class_val r = some v) :
    pyStrip v = strOrEmpty r.now ∨ pyStrip v = strOrEmpty r.prev := by
  unfold base_class_val at hbase
  cases hnow : r.now with
  | none =>
    simp only [hnow] at hbase
    right
    rw [hbase]
    rfl
  | some s =>
    simp only [hnow] at hbase
    by_cases hs : s = ""
    · rw [if_pos hs] at hbase
      right
      rw [hbase]
      rfl
    · rw [if_neg hs] at hbase
      left
      cases hbase
      rfl

lemma grade_entry_of_row_spec (r : RosterRow) (ke : String × RosterEntry)
    (hke : grade_entry_of_row r = some ke) :
    entryFromRow r ke.2 ∧ ∃ v, base_class_val r = some v ∧ ke.2.cls = pyStrip v := by
  unfold grade_entry_of_row at hke
  cases hname : r.name with
  | none => rw [hname] at hke; cases hke
  | some nmv =>
    simp only [hname] at hke
    by_cases hkey : normalize_name_key (some nmv) = ""
    · rw [if_pos hkey] at hke; cases hke
    · rw [if_neg hkey] at hke
      cases hbase : base_class_val r with
      | none => simp only [hbase] at hke; cases hke
      | some v =>
        simp only [hbase] at hke
        by_cases hc : pyStrip v = ""
        · rw [if_pos hc] at hke; cases hke
        · rw [if_neg hc] at hke
          cases hparse : parse_class_str (pyStrip v) with
          | none => simp only [hparse] at hke; cases hke
          | some gp =>
            obtain ⟨g, sec⟩ := gp
            simp only [hparse] at hke
            cases hke
            exact ⟨⟨rfl, hc, base_cls_cases r v hbase⟩, v, rfl, rfl⟩

lemma index_grade_map_spec (r : RosterRow) (seen : List (Int × String × String)) :
    index_grade_map r seen = (none, seen) ∨
    ∃ ke : String × RosterEntry,
      index_grade_map r seen = (some ke, (ke.2.grade, ke.2.name_key, ke.2.id) :: seen) ∧
      (ke.2.grade, ke.2.name_key, ke.2.id) ∉ seen ∧
      entryFromRow r ke.2 ∧ ∃ v, base_class_val r = some v ∧ ke.2.cls = pyStrip v := by
  cases hent : grade_entry_of_row r with
  | none =>
    left
    unfold index_grade_map
    rw [hent]
  | some ke =>
    have hred : index_grade_map r seen =
        if (ke.2.grade, ke.2.name_key, ke.2.id) ∈ seen then (none, seen)
        else (some ke, (ke.2.grade, ke.2.name_key, ke.2.id) :: seen) := by
      unfold index_grade_map
      rw [hent]
    by_cases hseen : (ke.2.grade, ke.2.name_key, ke.2.id) ∈ seen
    · left; rw [hred, if_pos hseen]
    · right
      exact ⟨ke, by rw [hred, if_neg hseen], hseen, (grade_entry_of_row_spec r ke hent).1,
        (grade_entry_of_row_spec r ke hent).2⟩

lemma gradeMapAux_spec : ∀ (rows : List RosterRow) (seen : List (Int × String × String)),
    (((gradeMapAux rows seen).1.map (fun ke => (ke.2.grade, ke.2.name_key, ke.2.id))).Nodup) ∧
    (∀ t ∈ (gradeMapAux rows seen).1.map (fun ke => (ke.2.grade, ke.2.name_key, ke.2.id)),
      t ∉ seen) ∧
    (∀ ke ∈ (gradeMapAux rows seen).1, ∃ r ∈ rows, entryFromRow r ke.2 ∧
      ∃ v, base_class_val r = some v ∧ ke.2.cls = pyStrip v) := by
  intro rows
  induction rows with
  | nil =>
    intro seen
    refine ⟨List.nodup_nil, ?_, ?_⟩ <;> intro t ht <;> cases ht
  | cons r rest ih =>
    intro seen
    rcases index_grade_map_spec r seen with heq | ⟨ke, heq, hnot, hinv, hbase⟩
    · have hred : gradeMapAux (r :: rest) seen = gradeMapAux rest seen := by
        simp only [gradeMapAux, heq]
      rw [hred]
      obtain ⟨h1, h2, h4⟩ := ih seen
      refine ⟨h1, h2, ?_⟩
      intro ke hke
      obtain ⟨r', hr', hv⟩ := h4 ke hke
      exact ⟨r', List.mem_cons_of_mem _ hr', hv⟩
    · have hred : gradeMapAux (r :: rest) seen =
          (ke :: (gradeMapAux rest ((ke.2.grade, ke.2.name_key, ke.2.id) :: seen)).1,
           (gradeMapAux rest ((ke.2.grade, ke.2.name_key, ke.2.id) :: seen)).2) := by
        simp only [gradeMapAux, heq]
      rw [hred]
      obtain ⟨h1, h2, h4⟩ := ih ((ke.2.grade, ke.2.name_key, ke.2.id) :: seen)
      refine ⟨?_, ?_, ?_⟩
      · simp only [List.map_cons]
        refine List.nodup_cons.mpr ⟨?_, h1⟩
        intro hmem
        exact (h2 _ hmem) (List.mem_cons_self _ _)
      · simp only [List.map_cons]
        intro t ht
        rcases List.mem_cons.mp ht with he | ht'
        · rw [he]; exact hnot
        · intro hs
          exact (h2 t ht') (List.mem_cons_of_mem _ hs)
      · intro ke' hke'
        rcases List.mem_cons.mp hke' with he | hke''
        · rw [he]
          exact ⟨r, List.mem_cons_self _ _, hinv, hbase⟩
        · obtain ⟨r', hr', hv⟩ := h4 ke' hke''
          exact ⟨r', List.mem_cons_of_mem _ hr', hv⟩

lemma rosterGradeMap_inv (rows : List RosterRow) :
    ∀ ke ∈ rosterGradeMap rows, ∃ r ∈ rows, entryFromRow r ke.2 ∧
      ∃ v, base_class_val r = some v ∧ ke.2.cls = pyStrip v :=
  (gradeMapAux_spec rows []).2.2

lemma rosterGradeMap_single (r : RosterRow) : (rosterGradeMap [r]).length ≤ 1 := by
  unfold rosterGradeMap
  rcases index_grade_map_spec r [] with heq | ⟨ke, heq, _, _, _⟩
  · simp [gradeMapAux, heq]
  · simp [gradeMapAux, heq]

lemma index_class_map_inv (cv : Option String) (r : RosterRow) (nk dn : String)
    (hcv : cv = r.now ∨ cv = r.prev) :
    ∀ ke ∈ index_class_map cv r.now nk r.id dn, entryFromRow r ke.2 := by
  intro ke hke
  unfold index_class_map at hke
  cases hcvv : cv with
  | none => rw [hcvv] at hke; cases hke
  | some v =>
    simp only [hcvv] at hke
    by_cases hc : pyStrip v = ""
    · rw [if_pos hc] at hke; cases hke
    · rw [if_neg hc] at hke
      have he := List.mem_singleton.mp hke
      rw [he]
      refine ⟨rfl, hc, ?_⟩
      rcases hcv with h | h
      · left; rw [← h, hcvv]; rfl
      · right; rw [← h, hcvv]; rfl

lemma classEntriesOfRow_inv (r : RosterRow) :
    ∀ ke ∈ classEntriesOfRow r, entryFromRow r ke.2 := by
  intro ke hke
  unfold classEntriesOfRow at hke
  cases hname : r.name with
  | none => rw [hname] at hke; cases hke
  | some nmv =>
    simp only [hname] at hke
    by_cases hkey : normalize_name_key (some nmv) = ""
    · rw [if_pos hkey] at hke; cases hke
    · rw [if_neg hkey] at hke
      rcases List.mem_append.mp hke with h | h
      · exact index_class_map_inv r.now r _ _ (Or.inl rfl) ke h
      · exact index_class_map_inv r.prev r _ _ (Or.inr rfl) ke h

lemma rosterClassMap_inv (rows : List RosterRow) :
    ∀ ke ∈ rosterClassMap rows, ∃ r ∈ rows, entryFromRow r ke.2 := by
  intro ke hke
  unfold rosterClassMap at hke
  rcases List.mem_flatMap.mp hke with ⟨r, hr, hker⟩
  exact ⟨r, hr, classEntriesOfRow_inv r ke hker⟩

lemma mapGet_mem {m : List (String × RosterEntry)} {k : String} {e : RosterEntry}
    (h : e ∈ mapGet m k) : ∃ ke ∈ m, ke.2 = e := by
  unfold mapGet at h
  rcases List.mem_map.mp h with ⟨ke, hke, he⟩
  exact ⟨ke, List.mem_of_mem_filter hke, he⟩

lemma fsc_mem {m : List (String × RosterEntry)} {g : Int} {b : String} {e : RosterEntry}
    (h : e ∈ find_suffix_candidates_for_grade m g b) : ∃ ke ∈ m, ke.2 = e := by
  unfold find_suffix_candidates_for_grade at h
  split at h
  · cases h
  · rcases List.mem_flatMap.mp h with ⟨kv, hkv, he⟩
    split at he
    · split at he
      · unfold mapItems at hkv
        rcases List.mem_map.mp hkv with ⟨k', _, hk'⟩
        rw [← hk'] at he
        exact mapGet_mem he
      · cases he
    · cases he

lemma resolveCore_inl (cm gm : List (String × RosterEntry)) (w : WithdrawRow) (k : String)
    (m : RosterEntry) (h : resolveCore cm gm w k = Sum.inl m) :
    (∃ ke ∈ cm, ke.2 = m) ∨ ∃ ke ∈ gm, ke.2 = m := by
  unfold resolveCore at h
  cases hms : mapGet cm (w.cls ++ "|" ++ k) with
  | cons m1 rest =>
    cases rest with
    | nil =>
      simp only [hms] at h
      cases h
      have hmm : m ∈ mapGet cm (w.cls ++ "|" ++ k) := by
        rw [hms]; exact List.mem_cons_self _ _
      exact Or.inl (mapGet_mem hmm)
    | cons m2 r2 =>
      simp only [hms] at h
      exact Sum.noConfusion h
  | nil =>
    simp only [hms] at h
    cases hcand : mapGet gm (toString w.grade ++ "|" ++ k) ++
        mapGet gm (toString (w.grade + 1) ++ "|" ++ k) with
    | cons c rest =>
      cases rest with
      | nil =>
        simp only [hcand] at h
        cases h
        have hc : m ∈ mapGet gm (toString w.grade ++ "|" ++ k) ++
            mapGet gm (toString (w.grade + 1) ++ "|" ++ k) := by
          rw [hcand]; exact List.mem_cons_self _ _
        rcases List.mem_append.mp hc with h' | h' <;> exact Or.inr (mapGet_mem h')
      | cons c2 r2 =>
        simp only [hcand] at h
        cases hs0 : find_suffix_candidates_for_grade gm w.grade (strip_name_suffix k) with
        | cons s1 srest =>
          cases srest with
          | nil =>
            simp only [hs0] at h
            cases h
            have hmm : m ∈ find_suffix_candidates_for_grade gm w.grade (strip_name_suffix k) := by
              rw [hs0]; exact List.mem_cons_self _ _
            exact Or.inr (fsc_mem hmm)
          | cons s2 sr2 =>
            simp only [hs0] at h
            exact Sum.noConfusion h
        | nil =>
          simp only [hs0] at h
          cases hs1 : find_suffix_candidates_for_grade gm (w.grade + 1)
              (strip_name_suffix k) with
          | cons s1 srest =>
            cases srest with
            | nil =>
              simp only [hs1] at h
              cases h
              have hmm : m ∈ find_suffix_candidates_for_grade gm (w.grade + 1)
                  (strip_name_suffix k) := by
                rw [hs1]; exact List.mem_cons_self _ _
              exact Or.inr (fsc_mem hmm)
            | cons s2 sr2 =>
              simp only [hs1] at h
              exact Sum.noConfusion h
          | nil =>
            simp only [hs1] at h
            split at h <;> cases h
    | nil =>
      simp only [hcand] at h
      cases hs0 : find_suffix_candidates_for_grade gm w.grade (strip_name_suffix k) with
      | cons s1 srest =>
        cases srest with
        | nil =>
          simp only [hs0] at h
          cases h
          have hmm : m ∈ find_suffix_candidates_for_grade gm w.grade (strip_name_suffix k) := by
            rw [hs0]; exact List.mem_cons_self _ _
          exact Or.inr (fsc_mem hmm)
        | cons s2 sr2 =>
          simp only [hs0] at h
          exact Sum.noConfusion h
      | nil =>
        simp only [hs0] at h
        cases hs1 : find_suffix_candidates_for_grade gm (w.grade + 1)
            (strip_name_suffix k) with
        | cons s1 srest =>
          cases srest with
          | nil =>
            simp only [hs1] at h
            cases h
            have hmm : m ∈ find_suffix_candidates_for_grade gm (w.grade + 1)
                (strip_name_suffix k) := by
              rw [hs1]; exact List.mem_cons_self _ _
            exact Or.inr (fsc_mem hmm)
          | cons s2 sr2 =>
            simp only [hs1] at h
            exact Sum.noConfusion h
        | nil =>
          simp only [hs1] at h
          split at h <;> cases h

lemma resolveWithdraw_inl (cm gm : List (String × RosterEntry)) (eff : Int)
    (w : WithdrawRow) (rec : WithdrawDone)
    (h : resolveWithdraw cm gm eff w = Sum.inl rec) :
    ∃ m, resolveCore cm gm w (normalize_name_key (some w.name)) = Sum.inl m ∧
      rec = ⟨finalClassLabel m w, w.name, m.id, eff⟩ := by
  unfold resolveWithdraw at h
  by_cases hk : normalize_name_key (some w.name) = ""
  · rw [if_pos hk] at h; cases h
  · rw [if_neg hk] at h
    cases hc : resolveCore cm gm w (normalize_name_key (some w.name)) with
    | inl m =>
      simp only [hc] at h
      refine ⟨m, rfl, ?_⟩
      cases h
      rfl
    | inr hh =>
      simp only [hc] at h
      exact Sum.noConfusion h

/-- C5 counterexample. A row with current class "2-1" and previous
class "1-5": the class index reaches it via the previous-class field,
but the grade index has no entry at the previous-class grade — the
grade index is not dually populated. -/
theorem C5_counterexample :
    mapGet (rosterClassMap [⟨some "2-1", some "1-5", some "김민", some "x"⟩])
      ("1-5" ++ "|" ++ normalize_name_key (some "김민")) ≠ [] ∧
    mapGet (rosterGradeMap [⟨some "2-1", some "1-5", some "김민", some "x"⟩])
      (toString (1 : Int) ++ "|" ++ normalize_name_key (some "김민")) = [] ∧
    (rosterGradeMap [⟨some "2-1", some "1-5", some "김민", some "x"⟩]).length = 1 := by
  refine ⟨by decide, by decide, by decide⟩

/-- C5 amended. The byGradeAndName index is populated from one class
value per roster row — the current-class field, falling back to the
previous-class field when the current one is missing or empty — and
its entries are deduplicated by (grade, nameKey, identifier). -/
theorem C5_amended_grade_index (rows : List RosterRow) :
    (((rosterGradeMap rows).map (fun ke => (ke.2.grade, ke.2.name_key, ke.2.id))).Nodup) ∧
    (∀ r : RosterRow, (rosterGradeMap [r]).length ≤ 1) ∧
    (∀ ke ∈ rosterGradeMap rows, ∃ r ∈ rows,
      ∃ v, base_class_val r = some v ∧ ke.2.cls = pyStrip v) := by
  refine ⟨(gradeMapAux_spec rows []).1, rosterGradeMap_single, ?_⟩
  intro ke hke
  obtain ⟨r, hr, _, hv⟩ := rosterGradeMap_inv rows ke hke
  exact ⟨r, hr, hv⟩

/-- C5 witness: the dedup/single-entry statement applied to a concrete
roster whose entry comes from the current-class field. -/
theorem C5_amended_grade_index_witness :
    (("2|김민", (⟨"2-1", "2-1", "김민", "김민", "x", 2⟩ : RosterEntry)) ∈
      rosterGradeMap [⟨some "2-1", some "1-5", some "김민", some "x"⟩]) ∧
    ∃ r ∈ [(⟨some "2-1", some "1-5", some "김민", some "x"⟩ : RosterRow)],
      ∃ v, base_class_val r = some v ∧
        (("2|김민", (⟨"2-1", "2-1", "김민", "김민", "x", 2⟩ : RosterEntry)) :
            String × RosterEntry).2.cls = pyStrip v :=
  ⟨by decide,
   (C5_amended_grade_index [⟨some "2-1", some "1-5", some "김민", some "x"⟩]).2.2
     ("2|김민", ⟨"2-1", "2-1", "김민", "김민", "x", 2⟩) (by decide)⟩

/-- C6 counterexample. A roster row whose current-class cell is empty:
the exact match is produced by the previous-class field and the
accepted record's class label is that previous-class value — not the
(empty) current-class field. -/
theorem C6_counterexample :
    (⟨none, some "1-5", some "김민", some "x1"⟩ : RosterRow).now = none ∧
    strOrEmpty (⟨none, some "1-5", some "김민", some "x1"⟩ : RosterRow).prev = "1-5" ∧
    build_withdraw_outputs [⟨none, some "1-5", some "김민", some "x1"⟩]
        [⟨1, "1-5", "김민"⟩] 10 20 =
      ([⟨"1-5", "김민", "x1", 20⟩], []) := by
  refine ⟨rfl, by decide, by decide⟩

/-- C6 amended. Every accepted withdrawal record's class label comes
from its matched roster row: it is the row's stripped current-class
value whenever that is nonempty (even when the key match was produced
by the previous-class field), and the row's stripped previous-class
value when the current-class cell is empty. -/
theorem C6_amended_final_label (rows : List RosterRow) (wrs : List WithdrawRow)
    (start work : Int) :
    ∀ rec ∈ (build_withdraw_outputs rows wrs start work).1, ∃ r ∈ rows,
      (strOrEmpty r.now ≠ "" → rec.withdraw_class = strOrEmpty r.now) ∧
      (strOrEmpty r.now = "" → rec.withdraw_class = strOrEmpty r.prev) := by
  intro rec hrec
  unfold build_withdraw_outputs at hrec
  simp only at hrec
  rcases List.mem_map.mp (mem_sumLefts hrec) with ⟨w, _, he⟩
  obtain ⟨m, hcore, hrec2⟩ := resolveWithdraw_inl _ _ _ _ _ he
  have hfrom : ∃ r ∈ rows, entryFromRow r m := by
    rcases resolveCore_inl _ _ _ _ _ hcore with ⟨ke, hke, hkem⟩ | ⟨ke, hke, hkem⟩
    · obtain ⟨r, hr, hinv⟩ := rosterClassMap_inv rows ke hke
      exact ⟨r, hr, hkem ▸ hinv⟩
    · obtain ⟨r, hr, hinv, _⟩ := rosterGradeMap_inv rows ke hke
      exact ⟨r, hr, hkem ▸ hinv⟩
  obtain ⟨r, hr, hnowc, hclsne, hclsor⟩ := hfrom
  refine ⟨r, hr, ?_, ?_⟩
  · intro hne
    rw [hrec2]
    show finalClassLabel m w = strOrEmpty r.now
    unfold finalClassLabel
    rw [hnowc, if_pos hne]
  · intro heq
    rw [hrec2]
    show finalClassLabel m w = strOrEmpty r.prev
    unfold finalClassLabel
    have h1 : ¬ (m.now_class ≠ "") := by rw [hnowc, heq]; simp
    rw [if_neg h1, if_pos hclsne]
    rcases hclsor with h | h
    · exact absurd (h.trans heq) hclsne
    · exact h

/-- C6 witness: the amended statement applied to a run whose candidate
matches only via the previous-class field of a row with a nonempty
current class; the label is that row's current class "2-3". -/
theorem C6_amended_final_label_witness :
    ((⟨"2-3", "김민", "2024KimMin", 30⟩ : WithdrawDone) ∈
      (build_withdraw_outputs [⟨some "2-3", some "1-5", some "김민", some "2024KimMin"⟩]
        [⟨1, "1-5", "김민"⟩] 30 10).1) ∧
    ∃ r ∈ [(⟨some "2-3", some "1-5", some "김민", some "2024KimMin"⟩ : RosterRow)],
      (strOrEmpty r.now ≠ "" →
        (⟨"2-3", "김민", "2024KimMin", 30⟩ : WithdrawDone).withdraw_class = strOrEmpty r.now) ∧
      (strOrEmpty r.now = "" →
        (⟨"2-3", "김민", "2024KimMin", 30⟩ : WithdrawDone).withdraw_class = strOrEmpty r.prev) :=
  ⟨by decide,
   C6_amended_final_label [⟨some "2-3", some "1-5", some "김민", some "2024KimMin"⟩]
     [⟨1, "1-5", "김민"⟩] 30 10 ⟨"2-3", "김민", "2024KimMin", 30⟩ (by decide)⟩

end Pipeline
